import Mathlib

/-!
Shallow embedding of the Cosmos gallery scraper (repository
`Cosmos-scraper-mk-2`).  The repository contains several variants of the
same scraper:

* `src/scraper/scrape.mjs`  — embedded below in namespace `Scrape`;
* `src/unnamed/part_001`    — embedded in namespace `P1`;
* `src/unnamed/part_002`    — embedded in namespace `P2`.

URLs are kept as plain Lean `String`s, exactly as the JavaScript code keeps
them; the platform `URL` builtin is modelled by the executable parser
`parseURL` below, which covers the URL shapes the scraper meets
(absolute `scheme://host/path?query#hash` references, opaque
`scheme:rest` references such as `data:` URIs, and root-relative
references resolved against a base).  Other relative reference forms are
treated as unparsable.  JavaScript's `toLowerCase` is modelled ASCII-wise
by `lowerStr`, which is exact on host names and URL schemes.
-/

namespace Cosmos

/-- Model of JavaScript `String.prototype.toLowerCase`, ASCII-wise. -/
def lowerStr (s : String) : String :=
  String.mk (s.data.map Char.toLower)

/-- Containment of `pat` in `hay`, modelling JS `String.prototype.includes`. -/
def charsContain (hay pat : List Char) : Bool :=
  match hay with
  | [] => pat.isEmpty
  | _ :: t => pat.isPrefixOf hay || charsContain t pat

/-- Model of JS `s.includes(pat)`. -/
def strContains (s pat : String) : Bool :=
  charsContain s.data pat.data

/-- Model of JS `s.endsWith(suf)` (executable on character lists). -/
def strEndsWith (s suf : String) : Bool :=
  List.isSuffixOf suf.data s.data

/-- Model of JS `s.startsWith(pre)` (executable on character lists). -/
def strStartsWith (s pre : String) : Bool :=
  List.isPrefixOf pre.data s.data

/-- Model of a case-insensitive test `/\.(e1|e2|...)(\?|$)/i.test s` for a
fixed extension list: the string contains `.ext?` or ends with `.ext`. -/
def extHit (s : String) (exts : List String) : Bool :=
  let t := lowerStr s
  exts.any (fun e => strEndsWith t ("." ++ e) || strContains t ("." ++ e ++ "?"))

/-- Extensions of `IMAGE_EXT_RE` (`jpe?g|png|webp|gif|avif|heic`). -/
def imageExts : List String := ["jpg", "jpeg", "png", "webp", "gif", "avif", "heic"]

/-- Extensions of `VIDEO_EXT_RE` (`mp4|webm|m4v|mov`). -/
def videoExts : List String := ["mp4", "webm", "m4v", "mov"]

/-- Extensions of `MEDIA_EXT_RE`. -/
def mediaExts : List String :=
  ["jpg", "jpeg", "png", "webp", "gif", "avif", "mp4", "webm", "m4v", "mov", "heic"]

/-- Model of `IMAGE_EXT_RE.test`. -/
def imageExtTest (s : String) : Bool := extHit s imageExts

/-- Model of `VIDEO_EXT_RE.test`. -/
def videoExtTest (s : String) : Bool := extHit s videoExts

/-- Model of `MEDIA_EXT_RE.test`. -/
def mediaExtTest (s : String) : Bool := extHit s mediaExts

/-- Model of `M3U8_EXT_RE.test`. -/
def m3u8Test (s : String) : Bool := extHit s ["m3u8"]

/-- Splitting a character list at a separator, modelling JS `split(sep)`
for a one-character separator. -/
def splitOnChar (sep : Char) : List Char → List (List Char)
  | [] => [[]]
  | c :: rest =>
    if c = sep then [] :: splitOnChar sep rest
    else
      match splitOnChar sep rest with
      | [] => [[c]]
      | g :: gs => (c :: g) :: gs

/-- Model of `pathname.split("/").filter(Boolean)`. -/
def pathSegs (p : String) : List String :=
  ((splitOnChar '/' p.data).map String.mk).filter (fun s => s ≠ "")

/-- Model of JS `Array.prototype.join(sep)`. -/
def joinStrings (sep : String) : List String → String
  | [] => ""
  | [x] => x
  | x :: y :: rest => x ++ sep ++ joinStrings sep (y :: rest)

/-- Result of the platform URL parser, mirroring the fields the scraper
reads: `protocol` keeps its trailing colon (`"https:"`), `host` is
lower-cased, `pathname` begins with `/` for non-opaque URLs, `search` and
`hash` keep their leading `?`/`#`.  `bare` marks opaque references such as
`data:` URIs, whose serialisation has no `//`. -/
structure Url where
  protocol : String
  host : String
  pathname : String
  search : String
  hash : String
  bare : Bool
deriving Repr, DecidableEq

/-- Characters allowed after the first character of a URL scheme. -/
def schemeChar (c : Char) : Bool :=
  c.isAlpha || c.isDigit || c = '+' || c = '-' || c = '.'

/-- Validity of a URL scheme. -/
def schemeOk : List Char → Bool
  | [] => false
  | c :: rest => c.isAlpha && rest.all schemeChar

/-- Characters terminating the host component. -/
def hostStop (c : Char) : Bool := c = '/' || c = '?' || c = '#'

/-- Characters terminating the path component. -/
def pathStop (c : Char) : Bool := c = '?' || c = '#'

/-- Characters terminating the scheme component. -/
def schemeStop (c : Char) : Bool := c = ':' || hostStop c

/-- Result of the platform parser for an opaque reference (no authority
component), e.g. a `data:` URI. -/
def parseBare (p r2 : List Char) : Url :=
  { protocol := lowerStr (String.mk p) ++ ":"
    host := ""
    pathname := String.mk (r2.takeWhile (fun c => !pathStop c))
    search := String.mk ((r2.dropWhile (fun c => !pathStop c)).takeWhile (fun c => !(c = '#')))
    hash := String.mk ((r2.dropWhile (fun c => !pathStop c)).dropWhile (fun c => !(c = '#')))
    bare := true }

/-- Result of the platform parser for an authority-bearing reference
(`scheme://host...`). -/
def parseHostful (p r3 : List Char) : Option Url :=
  let hostCs := r3.takeWhile (fun c => !hostStop c)
  let r4 := r3.dropWhile (fun c => !hostStop c)
  if hostCs.isEmpty then none
  else
    let pathCs := r4.takeWhile (fun c => !pathStop c)
    let r5 := r4.dropWhile (fun c => !pathStop c)
    some { protocol := lowerStr (String.mk p) ++ ":"
           host := lowerStr (String.mk hostCs)
           pathname := if pathCs.isEmpty then "/" else String.mk pathCs
           search := String.mk (r5.takeWhile (fun c => !(c = '#')))
           hash := String.mk (r5.dropWhile (fun c => !(c = '#')))
           bare := false }

/-- Executable model of `new URL(s)` on a character list: a valid scheme
up to a colon, then either `//` and an authority-bearing remainder, or an
opaque remainder. -/
def parseChars (cs : List Char) : Option Url :=
  let p := cs.takeWhile (fun c => !schemeStop c)
  match cs.dropWhile (fun c => !schemeStop c) with
  | c :: r2 =>
    if c = ':' then
      if schemeOk p then
        match r2 with
        | c1 :: c2 :: r3 =>
          if c1 = '/' then
            if c2 = '/' then parseHostful p r3
            else some (parseBare p r2)
          else some (parseBare p r2)
        | _ => some (parseBare p r2)
      else none
    else none
  | [] => none

/-- Executable model of `new URL(s)` (absolute references only). -/
def parseURL (s : String) : Option Url :=
  parseChars s.data

/-- Executable model of `new URL(s, base)`: absolute references parse on
their own; root-relative references take scheme and host from the base. -/
def parseURLRel (s base : String) : Option Url :=
  match parseURL s with
  | some u => some u
  | none =>
    if strStartsWith s "/" && !(strStartsWith s "//") then
      match parseURL base with
      | some b =>
        let cs := s.data
        let pathCs := cs.takeWhile (fun c => !pathStop c)
        let r5 := cs.dropWhile (fun c => !pathStop c)
        some { b with pathname := String.mk pathCs
                      search := String.mk (r5.takeWhile (fun c => !(c = '#')))
                      hash := String.mk (r5.dropWhile (fun c => !(c = '#'))) }
      | none => none
    else none

/-- Model of `URL.prototype.toString` for the fields above. -/
def Url.toStr (u : Url) : String :=
  u.protocol ++ (if u.bare then "" else "//" ++ u.host) ++ u.pathname ++ u.search ++ u.hash

/-- The quality-tier path segment of a streaming URL: the second path
segment when the URL lives on `stream.mux.com` (e.g. `low.mp4` or
`high.mp4`), `none` otherwise. -/
def muxTier (srcStr : String) : Option String :=
  match parseURL srcStr with
  | none => none
  | some u =>
    if lowerStr u.host = "stream.mux.com" then (pathSegs u.pathname).get? 1 else none

/-- Well-formedness of a parsed protocol: a valid, lower-case-fixed,
stop-free scheme followed by a colon. -/
def protoWF (pr : String) : Prop :=
  ∃ P, pr.data = P ++ [':'] ∧ schemeOk P = true ∧
    (∀ c ∈ P, schemeStop c = false) ∧ P.map Char.toLower = P

/-- Well-formedness of a parsed host: non-empty, free of host
terminators, fixed by lower-casing. -/
def hostWF (h : String) : Prop :=
  h.data ≠ [] ∧ (∀ c ∈ h.data, hostStop c = false) ∧
    h.data.map Char.toLower = h.data

/-- Well-formedness of a parsed pathname: starts with a slash and is free
of path terminators. -/
def pathWF (p : String) : Prop :=
  (∃ t, p.data = '/' :: t) ∧ (∀ c ∈ p.data, pathStop c = false)

/-- Model of a JS `Map` as an insertion-ordered association list. -/
def mapSet {α : Type} (m : List (String × α)) (k : String) (v : α) : List (String × α) :=
  if (m.lookup k).isSome then
    m.map (fun p => if p.1 = k then (k, v) else p)
  else m ++ [(k, v)]

/-- Model of a JS `Set` as an insertion-ordered duplicate-free list. -/
def setAdd (s : List String) (x : String) : List String :=
  if x ∈ s then s else s ++ [x]

/-- Insert an element into an already-sorted list, after every element
ordered no later than it (this is what makes the sort stable). -/
def insertLe {α : Type} (le : α → α → Bool) (x : α) : List α → List α
  | [] => [x]
  | y :: t => if le y x then y :: insertLe le x t else x :: y :: t

/-- Model of the stable JS `Array.prototype.sort`: a structural stable
insertion sort. -/
def stableSort {α : Type} (le : α → α → Bool) (l : List α) : List α :=
  l.foldl (fun acc x => insertLe le x acc) []

section SanityChecks

example :
    parseURL "https://Stream.Mux.com/ABC/low.mp4?x=1#f" =
      some ⟨"https:", "stream.mux.com", "/ABC/low.mp4", "?x=1", "#f", false⟩ := by
  decide

example : parseURL "https://cdn.cosmos.so" =
    some ⟨"https:", "cdn.cosmos.so", "/", "", "", false⟩ := by decide

example : parseURL "data:image/png;base64,xyz" =
    some ⟨"data:", "", "image/png;base64,xyz", "", "", true⟩ := by decide

example : parseURL "not a url" = none := by decide

example : parseURLRel "/a/b?q#z" "https://www.cosmos.so/rlphoto/swim" =
    some ⟨"https:", "www.cosmos.so", "/a/b", "?q", "#z", false⟩ := by decide

example : pathSegs "/ABC/low.mp4" = ["ABC", "low.mp4"] := by decide

example : videoExtTest "https://cdn.cosmos.so/x/video.MP4" = true := by decide

example : videoExtTest "https://cdn.cosmos.so/x/video.mp4?h=1" = true := by decide

example : imageExtTest "https://cdn.cosmos.so/x/video.mp4" = false := by decide

example : m3u8Test "https://stream.mux.com/ABC.m3u8" = true := by decide

example : strContains "abc/_next/def" "/_next/" = true := by decide

example : lowerStr "CDN.Cosmos.SO" = "cdn.cosmos.so" := by decide

end SanityChecks

/-! ## Embedding of `src/scraper/scrape.mjs` -/

namespace Scrape

/-- Default value of the `COSMOS_URL` environment variable. -/
def COSMOS_URL : String := "https://www.cosmos.so/rlphoto/swim"

/-- Default `MAX_SCROLLS`. -/
def MAX_SCROLLS : Nat := 260

/-- Default `STABLE_CHECKS`. -/
def STABLE_CHECKS : Nat := 8

/-- The `CDN_HOST_ALLOW` list. -/
def CDN_HOST_ALLOW : List String :=
  ["cdn.cosmos.so", "files.cosmos.so", "image.mux.com", "stream.mux.com",
   "images.prismic", "cloudfront", "googleusercontent"]

/-- The `MUX_STREAM_HOST` constant. -/
def MUX_STREAM_HOST : String := "stream.mux.com"

/-- Function `isCosmosImageHost` of `scrape.mjs`. -/
def isCosmosImageHost (hostname : String) : Bool :=
  let h := lowerStr hostname
  h = "cosmos.so" || strEndsWith h ".cosmos.so"

/-- Function `isExcluded` of `scrape.mjs`; a JS falsy `src` is the empty
string here (`null`/`undefined` sources are dropped before this point). -/
def isExcluded (src : String) : Bool :=
  src = "" ||
  strStartsWith src "data:" ||
  strContains src "default-avatars" ||
  strContains src "/_next/" ||
  strContains src "favicon" ||
  strContains src "cosmos.so/api/avatar" ||
  m3u8Test src

/-- Function `isMuxThumbnail` of `scrape.mjs`. -/
def isMuxThumbnail (urlStr : String) : Bool :=
  match parseURL urlStr with
  | some u =>
    lowerStr u.host = "image.mux.com" && strEndsWith (lowerStr u.pathname) "/thumbnail.png"
  | none => false

/-- Function `normaliseURL` of `scrape.mjs`: resolve against the base,
strip query and fragment, and return `protocol//host + pathname`. -/
def normaliseURL (src : String) (base : String) : Option String :=
  match parseURLRel src base with
  | some u => some (u.protocol ++ "//" ++ u.host ++ u.pathname)
  | none => none

/-- Function `hasFileExtension` of `scrape.mjs`: the last path segment
matches the regex `\.[a-z0-9]{2,5}$` case-insensitively, i.e. it has a dot
and the part after the last dot is 2 to 5 alphanumeric characters. -/
def hasFileExtension (pathname : String) : Bool :=
  let last := (pathSegs pathname).getLastD ""
  let parts := splitOnChar '.' last.data
  match parts with
  | [] => false
  | [_] => false
  | _ :: _ :: _ =>
    let ext := parts.getLastD []
    decide (2 ≤ ext.length) && decide (ext.length ≤ 5) &&
      ext.all (fun c => c.isAlpha || c.isDigit)

/-- Function `allowByHostAndExt` of `scrape.mjs`. -/
def allowByHostAndExt (urlStr : String) (typeHint : String) : Bool :=
  match parseURL urlStr with
  | none => false
  | some u =>
    let pathname := u.pathname
    if m3u8Test pathname then false
    else
      let hostOk := CDN_HOST_ALLOW.any (fun h => strContains (lowerStr u.host) h)
      let extOk := mediaExtTest pathname
      if typeHint = "image" then
        if !isCosmosImageHost u.host then false
        else if videoExtTest pathname then false
        else if m3u8Test pathname then false
        else if imageExtTest pathname then true
        else if !hasFileExtension pathname then true
        else false
      else if typeHint = "video" then extOk || hostOk
      else extOk || hostOk

/-- Function `muxPlaybackIdFromUrl` of `scrape.mjs`. -/
def muxPlaybackIdFromUrl (urlStr : String) : Option String :=
  match parseURL urlStr with
  | none => none
  | some u =>
    if lowerStr u.host ≠ MUX_STREAM_HOST then none
    else (pathSegs u.pathname).head?

/-- Function `upgradeMuxLowToHigh` of `scrape.mjs`: the body is
`return urlStr;` with the comment "keep low.mp4 as-is (no replacement)". -/
def upgradeMuxLowToHigh (urlStr : String) : String := urlStr

/-- Function `isCosmosHostedMp4` of `scrape.mjs`. -/
def isCosmosHostedMp4 (urlStr : String) : Bool :=
  match parseURL urlStr with
  | none => false
  | some u =>
    let host := lowerStr u.host
    if !videoExtTest u.pathname then false
    else host = "cdn.cosmos.so" || host = "files.cosmos.so"

/-- Function `clampDim` of `scrape.mjs`; DOM dimensions are modelled as
integers, on which `Math.floor` and the finiteness test are trivial. -/
def clampDim (n fallback : Int) : Int :=
  if n ≤ 0 then fallback
  else min (max n 1) 20000

/-- One element of the `positional` array: a DOM capture with page
coordinates, already normalised and filtered by `collectFromDOM`. -/
structure PosItem where
  type : String
  src : String
  poster : Option String
  top : Int
  left : Int
  width : Int
  height : Int
deriving Repr, DecidableEq

/-- One value of the `foundMap` map (`src -> item`); the `poster` field
stored for DOM entries is always `null` and never read afterwards, so it
is omitted. -/
structure FoundItem where
  type : String
  src : String
  width : Int
  height : Int
deriving Repr, DecidableEq

/-- One element of the final `ordered` output array. -/
structure OutItem where
  type : String
  src : String
  width : Int
  height : Int
  poster : Option String
deriving Repr, DecidableEq

/-- The identity key computed in the final build loops: mux playback id
for videos on the streaming host, otherwise type plus normalised URL. -/
def keyFor (ty norm : String) : String :=
  if ty = "video" then
    match muxPlaybackIdFromUrl norm with
    | some pid => "video:mux:" ++ pid
    | none => "video:url:" ++ norm
  else "image:url:" ++ norm

/-- The `hasAnyMux` flag: some positional capture lives on the mux
streaming host.  Computed from DOM captures only. -/
def hasAnyMux (positional : List PosItem) : Bool :=
  positional.any (fun p =>
    match parseURL p.src with
    | some u => lowerStr u.host = MUX_STREAM_HOST
    | none => false)

/-- The (possibly quality-upgraded) source of a positional capture, as
reassigned by `src = upgradeMuxLowToHigh(src)` for videos. -/
def upSrc1 (it : PosItem) : String :=
  if it.type = "video" then upgradeMuxLowToHigh it.src else it.src

/-- The poster kept for a positional capture (`// Keep poster if present
and not junk`). -/
def posterOut (it : PosItem) : Option String :=
  match it.poster with
  | none => none
  | some ps =>
    match normaliseURL ps COSMOS_URL with
    | none => none
    | some p =>
      if !isExcluded p && !isMuxThumbnail p && !m3u8Test p then some p else none

/-- The output record built for a positional capture when it is emitted
(it does not depend on the seen set). -/
def emitOut1 (it : PosItem) : OutItem :=
  { type := it.type, src := (normaliseURL (upSrc1 it) COSMOS_URL).getD "",
    width := clampDim it.width 0, height := clampDim it.height 0,
    poster := posterOut it }

/-- The identity key of an output record, recomputed from its fields. -/
def keyOfOut (o : OutItem) : String := keyFor o.type o.src

/-- Whether a positional capture passes every filter of the first build
loop (everything except the seen-set dedup). -/
def survives1 (ham : Bool) (it : PosItem) : Bool :=
  !isMuxThumbnail it.src && !m3u8Test it.src &&
  !(match parseURL it.src with
    | some u => it.type = "image" && !isCosmosImageHost u.host
    | none => false) &&
  !(it.type = "video" && ham && isCosmosHostedMp4 (upSrc1 it)) &&
  (normaliseURL (upSrc1 it) COSMOS_URL).isSome

/-- One iteration of the first build loop (`for (const it of positional)`),
acting on the pair (seen set, ordered output). -/
def loop1Step (ham : Bool) (st : List String × List OutItem) (it : PosItem) :
    List String × List OutItem :=
  let src := it.src
  if isMuxThumbnail src then st
  else if m3u8Test src then st
  else if (match parseURL src with
           | some u => it.type = "image" && !isCosmosImageHost u.host
           | none => false) then st
  else
    let src := upSrc1 it
    if it.type = "video" && ham && isCosmosHostedMp4 src then st
    else
      match normaliseURL src COSMOS_URL with
      | none => st
      | some norm =>
        let key := keyFor it.type norm
        if key ∈ st.1 then st
        else
          (st.1 ++ [key],
           st.2 ++ [{ type := it.type, src := norm,
                      width := clampDim it.width 0, height := clampDim it.height 0,
                      poster := posterOut it }])

/-- The `hint` recomputed in the network-append loop. -/
def netHint (vType : String) (src : String) : String :=
  match parseURL src with
  | some u =>
    let p := u.pathname
    if imageExtTest p then "image"
    else if videoExtTest p then "video"
    else if m3u8Test p then "video"
    else if vType = "image" then "image"
    else if vType = "video" then "video"
    else "unknown"
  | none =>
    if vType = "image" then "image"
    else if vType = "video" then "video"
    else "unknown"

/-- The `type` derived in the network-append loop
(`v.type || (VIDEO_EXT_RE.test(...) ? "video" : "image")`); the
parse-failure default is unreachable because `allowByHostAndExt` already
required the URL to parse. -/
def netTy (v : FoundItem) : String :=
  if v.type ≠ "" then v.type
  else
    match parseURL v.src with
    | some u => if videoExtTest u.pathname then "video" else "image"
    | none => "image"

/-- The `finalSrc` of the network-append loop. -/
def netFinalSrc (v : FoundItem) : String :=
  if netTy v = "video" then upgradeMuxLowToHigh v.src else v.src

/-- The output record built for a network discovery when it is emitted. -/
def emitOut2 (v : FoundItem) : OutItem :=
  { type := netTy v, src := (normaliseURL (netFinalSrc v) COSMOS_URL).getD "",
    width := clampDim v.width 0, height := clampDim v.height 0,
    poster := none }

/-- Whether a network discovery passes every filter of the append loop
(everything except the seen-set dedup). -/
def survives2 (ham : Bool) (v : FoundItem) : Bool :=
  !(v.src = "") && !(isExcluded v.src || isMuxThumbnail v.src) && !m3u8Test v.src &&
  allowByHostAndExt v.src (netHint v.type v.src) &&
  !(netTy v = "image" && (match parseURL v.src with
                          | some u => !isCosmosImageHost u.host
                          | none => false)) &&
  !(netTy v = "video" && ham && isCosmosHostedMp4 (netFinalSrc v)) &&
  !m3u8Test (netFinalSrc v) &&
  (normaliseURL (netFinalSrc v) COSMOS_URL).isSome

/-- One iteration of the network-append loop
(`for (const v of foundMap.values())`). -/
def loop2Step (ham : Bool) (st : List String × List OutItem) (v : FoundItem) :
    List String × List OutItem :=
  let src := v.src
  if src = "" then st
  else if isExcluded src || isMuxThumbnail src then st
  else if m3u8Test src then st
  else if !allowByHostAndExt src (netHint v.type src) then st
  else
    let ty := netTy v
    if ty = "image" && (match parseURL src with
                        | some u => !isCosmosImageHost u.host
                        | none => false) then st
    else
      let finalSrc := netFinalSrc v
      if ty = "video" && ham && isCosmosHostedMp4 finalSrc then st
      else if m3u8Test finalSrc then st
      else
        match normaliseURL finalSrc COSMOS_URL with
        | none => st
        | some norm =>
          let key := keyFor ty norm
          if key ∈ st.1 then st
          else
            (st.1 ++ [key],
             st.2 ++ [{ type := ty, src := norm,
                        width := clampDim v.width 0, height := clampDim v.height 0,
                        poster := none }])

/-- The visual comparator `(a.top - b.top) || (a.left - b.left)` as a
total boolean order. -/
def posLe (a b : PosItem) : Bool :=
  a.top < b.top || (a.top = b.top && a.left ≤ b.left)

/-- The `positional.sort(...)` call (JS array sort is stable). -/
def sortPositional (l : List PosItem) : List PosItem :=
  stableSort posLe l

/-- The complete finalisation: sort the positional captures, run the
deduplicating build loop over them, then append the remaining network
discoveries in `foundMap` insertion order. -/
def finalBuild (positional : List PosItem) (found : List FoundItem) : List OutItem :=
  let ham := hasAnyMux positional
  let st1 := (sortPositional positional).foldl (loop1Step ham) ([], [])
  let st2 := found.foldl (loop2Step ham) st1
  st2.2

/-- The `foundMap` upsert of `collectFromDOM` (lines 392-409): insert a
fresh record, or keep the numerically larger non-zero dimensions. -/
def domFoundUpsert (m : List (String × FoundItem)) (norm0 : String)
    (isVideo : Bool) (w h : Int) : List (String × FoundItem) :=
  match m.lookup norm0 with
  | none =>
    mapSet m norm0
      { type := if isVideo then "video" else "image", src := norm0,
        width := clampDim w 0, height := clampDim h 0 }
  | some existing =>
    let nw := clampDim w 0
    let nh := clampDim h 0
    let w' := if (existing.width = 0 ∨ existing.width < nw) ∧ nw ≠ 0 then nw else existing.width
    let h' := if (existing.height = 0 ∨ existing.height < nh) ∧ nh ≠ 0 then nh else existing.height
    mapSet m norm0 { existing with width := w', height := h' }

/-- The scroll loop of `scrape.mjs` (lines 419-438), driven by the
successive `document.body.scrollHeight` readings: starting from
`lastH = 0, stable = 0`, a step whose height equals the previous one
increments `stable` and breaks once `stable >= STABLE_CHECKS`; any other
height resets the counter.  Returns the number of executed steps and
whether the loop broke early.  The per-step DOM collection does not
influence the exit condition. -/
def scrollLoopGo (stableChecks : Nat) : List Int → Int → Nat → Nat → Nat × Bool
  | [], _, _, i => (i, false)
  | h :: rest, lastH, stable, i =>
    if h = lastH then
      let stable' := stable + 1
      if stableChecks ≤ stable' then (i + 1, true)
      else scrollLoopGo stableChecks rest lastH stable' (i + 1)
    else scrollLoopGo stableChecks rest h 0 (i + 1)

/-- The scroll loop run for at most `maxScrolls` steps over a height
trace. -/
def scrollLoop (maxScrolls stableChecks : Nat) (heights : Nat → Int) : Nat × Bool :=
  scrollLoopGo stableChecks ((List.range maxScrolls).map heights) 0 0 0

/-- The success/failure payload shape written to the output file. -/
structure Payload where
  ok : Bool
  source : String
  count : Nat
  items : List OutItem
  error : Option String
deriving Repr, DecidableEq

/-- Overall control flow of the `scrape.mjs` async main: there is no
`try/catch`, so a navigation failure escapes as an unhandled rejection —
the process exits non-zero and nothing at all is written to the output
file.  The `Except.error` result models that crash (no payload). -/
def scrapeRun (nav : Except String Unit) (positional : List PosItem)
    (found : List FoundItem) : Except String Payload :=
  match nav with
  | Except.error e => Except.error e
  | Except.ok _ =>
    let items := finalBuild positional found
    Except.ok { ok := true, source := COSMOS_URL, count := items.length,
                items := items, error := none }

/-- The stability counter the specification asks for on the item channel:
consecutive trailing steps that merged zero new identities. -/
def zeroNewStreak (news : List Nat) : Nat :=
  news.foldl (fun acc n => if n = 0 then acc + 1 else 0) 0

end Scrape

/-! ## Embedding of `src/unnamed/part_001` -/

namespace P1

/-- Default `STABLE_CHECKS`. -/
def STABLE_CHECKS : Nat := 25

/-- Test of `SKIP_AVATAR_RE` (`/cdn\.cosmos\.so\/default-avatars\//i`). -/
def skipAvatarTest (s : String) : Bool :=
  strContains (lowerStr s) "cdn.cosmos.so/default-avatars/"

/-- Function `normUrl` of `part_001`: clear fragment and query, lower-case
the host, and serialise with `toString`. -/
def normUrl (url : String) : Option String :=
  match parseURL url with
  | some u =>
    some (Url.toStr { u with hash := "", search := "", host := lowerStr u.host })
  | none => none

/-- Function `upgradeMux` of `part_001`: on `stream.mux.com` URLs with at
least two path segments, overwrite the second segment with `high.mp4`,
clear query and fragment, and reserialise; otherwise return the URL
unchanged. -/
def upgradeMux (url : String) : String :=
  match parseURL url with
  | none => url
  | some u =>
    if lowerStr u.host ≠ "stream.mux.com" then url
    else
      let seg := pathSegs u.pathname
      if 2 ≤ seg.length then
        Url.toStr { u with pathname := "/" ++ joinStrings "/" (seg.set 1 "high.mp4"),
                           search := "", hash := "" }
      else url

/-- Function `muxPlaybackIdFromStream` of `part_001`. -/
def muxPlaybackIdFromStream (url : String) : Option String :=
  match parseURL url with
  | none => none
  | some u =>
    if lowerStr u.host ≠ "stream.mux.com" then none
    else (pathSegs u.pathname).head?

/-- Function `muxPlaybackIdFromThumb` of `part_001`. -/
def muxPlaybackIdFromThumb (url : String) : Option String :=
  match parseURL url with
  | none => none
  | some u =>
    if lowerStr u.host ≠ "image.mux.com" then none
    else
      let seg := pathSegs u.pathname
      if 2 ≤ seg.length ∧ lowerStr ((seg.get? 1).getD "") = "thumbnail.png" then
        seg.head?
      else none

/-- One raw tile of an extracted batch; `stableId` and `poster` are
`none` when the corresponding DOM value is falsy. -/
structure RawTile where
  stableId : Option String
  type : String
  src : String
  poster : Option String
  top : Int
  left : Int
deriving Repr, DecidableEq

/-- One value of the `collected` map; `ptop`/`pleft` model the internal
`_top`/`_left` ordering fields. -/
structure Item where
  type : String
  src : String
  width : Int
  height : Int
  poster : Option String
  ptop : Int
  pleft : Int
deriving Repr, DecidableEq

/-- The `finalSrc` local of `addBatch`. -/
def finalSrcOf (raw : RawTile) (n0 : String) : String :=
  if raw.type = "video" then upgradeMux n0 else n0

/-- The `playbackId` local of `addBatch`. -/
def playbackIdOf (raw : RawTile) (finalSrc : String) : Option String :=
  if raw.type = "video" then muxPlaybackIdFromStream finalSrc else none

/-- The `key` local of `addBatch`: explicit stable id, then mux playback
id for videos, then type plus final URL. -/
def keyOf (raw : RawTile) (finalSrc : String) (playbackId : Option String) : String :=
  match raw.stableId with
  | some sid => raw.type ++ ":id:" ++ sid
  | none =>
    match playbackId with
    | some pid =>
      if raw.type = "video" then "video:mux:" ++ pid
      else raw.type ++ ":url:" ++ finalSrc
    | none => raw.type ++ ":url:" ++ finalSrc

/-- The freshly inserted collected item of `addBatch`. -/
def freshItem (raw : RawTile) (finalSrc : String) : Item :=
  { type := raw.type, src := finalSrc, width := 0, height := 0,
    poster :=
      match raw.poster with
      | none => none
      | some p => some ((normUrl p).getD p),
    ptop := raw.top, pleft := raw.left }

/-- The position refresh applied on key collision in `addBatch` (JS
truthiness: a coordinate participates only when non-zero). -/
def posUpdate (existing : Item) (t l : Int) : Item :=
  { existing with
    ptop := if t ≠ 0 ∧ (existing.ptop = 0 ∨ t < existing.ptop) then t else existing.ptop,
    pleft := if l ≠ 0 ∧ (existing.pleft = 0 ∨ l < existing.pleft) then l else existing.pleft }

/-- One iteration of `addBatch` over a raw tile: canonicalise, upgrade
mux quality, derive the stable key, then insert or refresh the ordering
position (the numeric `|| 0` coercions are identities on integers). -/
def mergeObs (collected : List (String × Item)) (raw : RawTile) : List (String × Item) :=
  if raw.src = "" then collected
  else if skipAvatarTest raw.src then collected
  else
    match normUrl raw.src with
    | none => collected
    | some n0 =>
      let finalSrc := finalSrcOf raw n0
      let key := keyOf raw finalSrc (playbackIdOf raw finalSrc)
      match collected.lookup key with
      | none => mapSet collected key (freshItem raw finalSrc)
      | some existing => mapSet collected key (posUpdate existing raw.top raw.left)

/-- Function `addBatch` of `part_001` (its effect on `collected`; the
`added` counter is the key growth, recoverable as a length difference). -/
def addBatch (collected : List (String × Item)) (batch : List RawTile) :
    List (String × Item) :=
  batch.foldl mergeObs collected

/-- The playback ids of collected mux videos (`muxVideos`). -/
def muxVideos (all : List Item) : List String :=
  (all.filter (fun it => it.type = "video")).filterMap
    (fun it => muxPlaybackIdFromStream it.src)

/-- The thumbnail-suppression filter (`filtered`). -/
def filteredItems (all : List Item) : List Item :=
  all.filter (fun it =>
    if it.type ≠ "image" then true
    else
      match muxPlaybackIdFromThumb it.src with
      | none => true
      | some pid => !(muxVideos all).contains pid)

/-- The final visual sort of `part_001` (`(a._top||0)-(b._top||0)` then
left; `|| 0` is the identity on integers). -/
def sortItems (l : List Item) : List Item :=
  stableSort (fun a b => a.ptop < b.ptop || (a.ptop = b.ptop && a.pleft ≤ b.pleft)) l

/-- One element of the emitted `items` array (internal fields stripped). -/
structure OutP1 where
  type : String
  src : String
  width : Int
  height : Int
  poster : Option String
deriving Repr, DecidableEq

/-- The emitted `items` array of the success path. -/
def finalItems (collected : List (String × Item)) : List OutP1 :=
  (sortItems (filteredItems (collected.map Prod.snd))).map
    (fun it => { type := it.type, src := it.src, width := it.width,
                 height := it.height, poster := it.poster })

/-- The payload shape written by `safeWrite`. -/
structure Payload where
  ok : Bool
  source : String
  count : Nat
  items : List OutP1
  error : Option String
deriving Repr, DecidableEq

/-- Control flow of `run` in `part_001`: the `try` block navigates and
scrapes; its `catch` writes the failure payload and sets the process exit
code to 1.  The result pairs the payload written by `safeWrite` with the
process exit code. -/
def run (url : String) (nav : Except String Unit)
    (collected : List (String × Item)) : Payload × Nat :=
  match nav with
  | Except.error e =>
    ({ ok := false, source := url, count := 0, items := [], error := some e }, 1)
  | Except.ok _ =>
    let items := finalItems collected
    ({ ok := true, source := url, count := items.length, items := items,
       error := none }, 0)

end P1

/-! ## Embedding of `src/unnamed/part_002` -/

namespace P2

/-- Default `COSMOS_URL`. -/
def COSMOS_URL : String := "https://www.cosmos.so/rlphoto/swim"

/-- Default `MAX_SCROLLS`. -/
def MAX_SCROLLS : Nat := 260

/-- Default `STABLE_CHECKS`. -/
def STABLE_CHECKS : Nat := 10

/-- Function `isExcludedUrl` of `part_002`. -/
def isExcludedUrl (u : String) : Bool :=
  u = "" ||
  strStartsWith u "data:" ||
  strContains (lowerStr u) "cdn.cosmos.so/default-avatars/" ||
  strContains (lowerStr u) "/_next/" ||
  strContains u "favicon"

/-- Function `normaliseURL` of `part_002`: resolve against the base,
strip query and fragment, serialise with `toString`. -/
def normaliseURL (src : String) (base : String) : Option String :=
  match parseURLRel src base with
  | some u => some (Url.toStr { u with search := "", hash := "" })
  | none => none

/-- Function `muxPlaybackIdFromStream` of `part_002`. -/
def muxPlaybackIdFromStream (urlStr : String) : Option String :=
  match parseURL urlStr with
  | none => none
  | some u =>
    if lowerStr u.host ≠ "stream.mux.com" then none
    else (pathSegs u.pathname).head?

/-- Function `muxPlaybackIdFromThumb` of `part_002`: a non-empty first
segment on `image.mux.com` with a pathname ending in `thumbnail.png`. -/
def muxPlaybackIdFromThumb (urlStr : String) : Option String :=
  match parseURL urlStr with
  | none => none
  | some u =>
    if lowerStr u.host ≠ "image.mux.com" then none
    else
      match (pathSegs u.pathname).head? with
      | none => none
      | some seg0 =>
        if strEndsWith (lowerStr u.pathname) "thumbnail.png" then some seg0
        else none

/-- Function `upgradeMuxLowToHigh` of `part_002`: on `stream.mux.com`
URLs with at least one segment, replace a second segment ending in
`low.mp4` by `high.mp4` and reserialise without query or fragment. -/
def upgradeMuxLowToHigh (urlStr : String) : String :=
  match parseURL urlStr with
  | none => urlStr
  | some u =>
    if lowerStr u.host ≠ "stream.mux.com" then urlStr
    else
      let seg := pathSegs u.pathname
      if seg.length = 0 then urlStr
      else
        let seg' :=
          match seg.get? 1 with
          | some s1 => if strEndsWith (lowerStr s1) "low.mp4" then seg.set 1 "high.mp4" else seg
          | none => seg
        Url.toStr { u with pathname := "/" ++ joinStrings "/" seg',
                           search := "", hash := "" }

/-- One raw tile reported by the in-page collector of
`collectVisibleTiles`. -/
structure RawTile where
  type : String
  src : String
  poster : Option String
  top : Int
  left : Int
  w : Int
  h : Int
deriving Repr, DecidableEq

/-- One value of `itemsByKey`. -/
structure Item where
  type : String
  src : String
  width : Int
  height : Int
  top : Int
  left : Int
  poster : Option String
deriving Repr, DecidableEq

/-- The collector state: `itemsByKey` and `seenMuxThumbPlaybackIds`. -/
structure State where
  itemsByKey : List (String × Item)
  seenMuxThumbPlaybackIds : List String
deriving Repr, DecidableEq

/-- The initial state. -/
def initState : State := { itemsByKey := [], seenMuxThumbPlaybackIds := [] }

/-- The `type` local of the merge loop (`raw.type || (ext-based guess)`). -/
def tileTy (raw : RawTile) (src : String) : String :=
  if raw.type ≠ "" then raw.type
  else if videoExtTest src then "video"
  else if imageExtTest src then "image"
  else "image"

/-- The `key` local of the merge loop: mux videos dedupe by playback id,
everything else by type plus source. -/
def tileKey (ty src : String) : String :=
  if ty = "video" then
    match muxPlaybackIdFromStream src with
    | some pid => "video:mux:" ++ pid
    | none => ty ++ ":" ++ src
  else ty ++ ":" ++ src

/-- The `candidate` local of the merge loop. -/
def tileCand (raw : RawTile) (ty src : String) : Item :=
  { type := ty, src := src, width := 0, height := 0,
    top := raw.top, left := raw.left,
    poster :=
      match raw.poster with
      | none => none
      | some p => normaliseURL p COSMOS_URL }

/-- The keep-the-earliest upsert at the end of the merge loop: insert a
new key, else replace only when the candidate's `top*100000 + left` rank
is strictly smaller. -/
def rankStep (key : String) (candidate : Item) (m : List (String × Item)) :
    List (String × Item) :=
  match m.lookup key with
  | none => mapSet m key candidate
  | some prev =>
    if candidate.top * 100000 + candidate.left < prev.top * 100000 + prev.left then
      mapSet m key candidate
    else m

/-- One iteration of the merge loop of `collectVisibleTiles` over a raw
tile (lines 243-289). -/
def mergeTile (st : State) (raw : RawTile) : State :=
  match normaliseURL raw.src COSMOS_URL with
  | none => st
  | some src0 =>
    if isExcludedUrl src0 then st
    else
      match muxPlaybackIdFromThumb src0 with
      | some muxThumbId =>
        { st with seenMuxThumbPlaybackIds := setAdd st.seenMuxThumbPlaybackIds muxThumbId }
      | none =>
        let src := upgradeMuxLowToHigh src0
        let ty := tileTy raw src
        { st with itemsByKey := rankStep (tileKey ty src) (tileCand raw ty src) st.itemsByKey }

/-- A whole batch merged in order. -/
def mergeBatch (st : State) (batch : List RawTile) : State :=
  batch.foldl mergeTile st

/-- One element of the emitted `items` array. -/
structure OutP2 where
  type : String
  src : String
  width : Int
  height : Int
  poster : Option String
deriving Repr, DecidableEq

/-- The final emission of `part_002`: sort the collected values by
`(top, left)` and strip the ordering fields. -/
def finalItems (st : State) : List OutP2 :=
  (stableSort (fun a b => a.top < b.top || (a.top = b.top && a.left ≤ b.left))
      (st.itemsByKey.map Prod.snd)).map
    (fun it => { type := it.type, src := it.src, width := it.width,
                 height := it.height, poster := it.poster })

/-- Collect a batch from the empty state and emit. -/
def runBatch (batch : List RawTile) : List OutP2 :=
  finalItems (mergeBatch initState batch)

/-- A raw tile the merge loop accepts as a mux-streamed video with
playback id `p`. -/
def acceptedMux (p : String) (raw : RawTile) : Prop :=
  ∃ src0, normaliseURL raw.src COSMOS_URL = some src0 ∧
    isExcludedUrl src0 = false ∧
    muxPlaybackIdFromThumb src0 = none ∧
    tileTy raw (upgradeMuxLowToHigh src0) = "video" ∧
    muxPlaybackIdFromStream (upgradeMuxLowToHigh src0) = some p

/-- Invariant of `itemsByKey` for a playback id `p`: keys are unique,
every mux-`p` video value sits at the canonical `video:mux:<p>` key, and
every value at that key is a mux-`p` video stored at the highest quality
tier. -/
def muxInv (p : String) (m : List (String × Item)) : Prop :=
  (m.map Prod.fst).Nodup ∧
  (∀ kv ∈ m, (kv.2.type = "video" ∧ muxPlaybackIdFromStream kv.2.src = some p) →
     kv.1 = "video:mux:" ++ p) ∧
  (∀ kv ∈ m, kv.1 = "video:mux:" ++ p →
     kv.2.type = "video" ∧ muxPlaybackIdFromStream kv.2.src = some p ∧
     muxTier kv.2.src = some "high.mp4")

/-- One scroll step's observations: `count` is `itemsByKey.size` right
after the collection, `height` is `document.body.scrollHeight` after the
scroll. -/
structure StepObs where
  count : Nat
  height : Int
deriving Repr, DecidableEq

/-- The scroll loop of `part_002` (lines 298-324): on each step the
no-new-items counter is updated from the collection count, then the
height-stability counter from the scroll height, and the loop breaks only
when both counters have reached `stableChecks`.  Returns executed steps,
whether the loop broke early, and the two final counters. -/
def loopGo (stableChecks : Nat) :
    List StepObs → Int → Nat → Nat → Nat → Nat → Nat × Bool × Nat × Nat
  | [], _, stable, _, noNew, i => (i, false, stable, noNew)
  | s :: rest, lastH, stable, lastCount, noNew, i =>
    let noNew' := if s.count = lastCount then noNew + 1 else 0
    let stable' := if s.height = lastH then stable + 1 else 0
    let lastH' := if s.height = lastH then lastH else s.height
    if stableChecks ≤ stable' ∧ stableChecks ≤ noNew' then (i + 1, true, stable', noNew')
    else loopGo stableChecks rest lastH' stable' s.count noNew' (i + 1)

/-- The scroll loop run for at most `maxScrolls` steps over a trace of
per-step observations. -/
def scrollLoop (maxScrolls stableChecks : Nat) (trace : Nat → StepObs) :
    Nat × Bool × Nat × Nat :=
  loopGo stableChecks ((List.range maxScrolls).map trace) 0 0 0 0 0

end P2

/-! ## Derived predicates and concrete inputs used by the theorems -/

/-- A raw tile is coherent for playback id `p`: whenever the merge loop
accepts it under the canonical key `video:mux:<p>`, it really is a mux
video for `p` whose (possibly upgraded) URL sits at the `high.mp4` tier.
Real mux tiles whose variant segment is `low.mp4` or `high.mp4` satisfy
this; it rules out pathological sources whose type-plus-URL key merely
collides with the canonical mux key. -/
def P2.muxAttrib (p : String) (raw : P2.RawTile) : Prop :=
  ∀ src0, P2.normaliseURL raw.src P2.COSMOS_URL = some src0 →
    P2.isExcludedUrl src0 = false → P2.muxPlaybackIdFromThumb src0 = none →
    P2.tileKey (P2.tileTy raw (P2.upgradeMuxLowToHigh src0))
        (P2.upgradeMuxLowToHigh src0) = "video:mux:" ++ p →
    P2.tileTy raw (P2.upgradeMuxLowToHigh src0) = "video" ∧
      P2.muxPlaybackIdFromStream (P2.upgradeMuxLowToHigh src0) = some p ∧
      muxTier (P2.upgradeMuxLowToHigh src0) = some "high.mp4"

/-- A raw tile is a poster-only (provider thumbnail) observation: whenever
it survives normalisation and the exclusion list, it is recognised as a
mux thumbnail. -/
def P2.posterOnly (t : P2.RawTile) : Prop :=
  ∀ src0, P2.normaliseURL t.src P2.COSMOS_URL = some src0 →
    P2.isExcludedUrl src0 = false → (P2.muxPlaybackIdFromThumb src0).isSome

/-- Concrete low-tier mux video capture (positional, `scrape.mjs`). -/
def CxVidLow : Scrape.PosItem :=
  { type := "video", src := "https://stream.mux.com/abc123/low.mp4",
    poster := none, top := 0, left := 0, width := 0, height := 0 }

/-- Concrete low-tier mux video tile (`part_002`). -/
def W2low : P2.RawTile :=
  { type := "video", src := "https://stream.mux.com/abc123/low.mp4",
    poster := none, top := 40, left := 0, w := 0, h := 0 }

/-- Concrete high-tier mux video tile for the same clip (`part_002`). -/
def W2high : P2.RawTile :=
  { type := "video", src := "https://stream.mux.com/abc123/high.mp4",
    poster := none, top := 120, left := 0, w := 0, h := 0 }

/-- Concrete mux thumbnail tile for the same clip (`part_002`). -/
def W4thumb : P2.RawTile :=
  { type := "image", src := "https://image.mux.com/abc123/thumbnail.png",
    poster := none, top := 40, left := 0, w := 0, h := 0 }

/-- Concrete cosmos-hosted image capture seen with width 0. -/
def Cx6a : Scrape.PosItem :=
  { type := "image", src := "https://cdn.cosmos.so/a.jpg",
    poster := none, top := 0, left := 0, width := 0, height := 0 }

/-- The same image captured later with its real dimensions. -/
def Cx6b : Scrape.PosItem :=
  { type := "image", src := "https://cdn.cosmos.so/a.jpg",
    poster := none, top := 10, left := 0, width := 500, height := 400 }

/-- Concrete cosmos-hosted mp4 video capture (positional). -/
def Cx7cos : Scrape.PosItem :=
  { type := "video", src := "https://cdn.cosmos.so/clip.mp4",
    poster := none, top := 0, left := 0, width := 0, height := 0 }

/-- Concrete mux video discovered on the network channel only. -/
def Cx7found : Scrape.FoundItem :=
  { type := "video", src := "https://stream.mux.com/abc123/low.mp4",
    width := 0, height := 0 }

/-- Concrete cosmos-hosted mp4 capture placed after a mux capture. -/
def W7cos : Scrape.PosItem :=
  { type := "video", src := "https://cdn.cosmos.so/clip.mp4",
    poster := none, top := 10, left := 0, width := 0, height := 0 }

/-- Parsed form of the mux capture source. -/
def W7u1 : Url :=
  { protocol := "https:", host := "stream.mux.com", pathname := "/abc123/low.mp4",
    search := "", hash := "", bare := false }

/-- Parsed form of the cosmos capture source. -/
def W7u2 : Url :=
  { protocol := "https:", host := "cdn.cosmos.so", pathname := "/clip.mp4",
    search := "", hash := "", bare := false }

/-- An existing `foundMap` record with unknown dimensions. -/
def Cx6FoundA : Scrape.FoundItem :=
  { type := "image", src := "https://cdn.cosmos.so/a.jpg", width := 0, height := 0 }

/-- Parsed form of a mid-tier mux URL. -/
def W10u : Url :=
  { protocol := "https:", host := "stream.mux.com", pathname := "/abc123/medium.mp4",
    search := "", hash := "", bare := false }

/-! ## Lemmas about the JS `Map`/`Set` models -/

section MapLemmas

variable {α : Type}

lemma lookup_map_over (m : List (String × α)) (k : String) (v : α)
    (h : (m.lookup k).isSome) :
    (m.map (fun p => if p.1 = k then (k, v) else p)).lookup k = some v := by
  induction m with
  | nil => simp at h
  | cons p t ih =>
    obtain ⟨a, b⟩ := p
    by_cases hp : a = k
    · subst hp
      have hh : (if (a, b).1 = a then (a, v) else (a, b)) = (a, v) := by simp
      rw [List.map_cons]
      rw [hh]
      simp [List.lookup]
    · have hka : (k == a) = false := beq_eq_false_iff_ne.mpr (fun hk => hp hk.symm)
      have hh : (if (a, b).1 = k then (k, v) else (a, b)) = (a, b) := by simp [hp]
      rw [List.map_cons]
      rw [hh]
      rw [List.lookup_cons, hka] at h
      rw [List.lookup_cons, hka]
      exact ih h

lemma lookup_none_keys (m : List (String × α)) (k : String)
    (h : m.lookup k = none) : ∀ p ∈ m, p.1 ≠ k := by
  induction m with
  | nil => simp
  | cons q t ih =>
    obtain ⟨a, b⟩ := q
    intro p hp
    rcases List.mem_cons.mp hp with rfl | hmem
    · intro hq
      simp only at hq
      subst hq
      simp [List.lookup] at h
    · refine ih ?_ p hmem
      by_cases hka : k = a
      · subst hka; simp [List.lookup] at h
      · simpa [List.lookup, beq_eq_false_iff_ne.mpr hka] using h

lemma lookup_mapSet (m : List (String × α)) (k : String) (v : α) :
    (mapSet m k v).lookup k = some v := by
  rw [show mapSet m k v =
        if (m.lookup k).isSome then
          m.map (fun p => if p.1 = k then (k, v) else p)
        else m ++ [(k, v)] from rfl]
  split
  · exact lookup_map_over m k v (by assumption)
  · rename_i hs
    have hn : m.lookup k = none := by
      cases hl : m.lookup k with
      | none => rfl
      | some w => rw [hl] at hs; simp at hs
    rw [List.lookup_append, hn]
    simp [List.lookup]

lemma mapSet_fix (m : List (String × α)) (k : String) (v : α) :
    (mapSet m k v).map (fun p => if p.1 = k then (k, v) else p) = mapSet m k v := by
  rw [show mapSet m k v =
        if (m.lookup k).isSome then
          m.map (fun p => if p.1 = k then (k, v) else p)
        else m ++ [(k, v)] from rfl]
  split
  · rw [List.map_map]
    apply List.map_congr_left
    intro p _
    obtain ⟨a, b⟩ := p
    by_cases hp : a = k <;> simp [Function.comp, hp]
  · rename_i hs
    have hn : m.lookup k = none := by
      cases hl : m.lookup k with
      | none => rfl
      | some w => rw [hl] at hs; simp at hs
    rw [List.map_append]
    have h1 : m.map (fun p => if p.1 = k then (k, v) else p) = m := by
      have hc : ∀ p ∈ m, (if p.1 = k then (k, v) else p) = id p := by
        intro p hp
        simp only [id]
        rw [if_neg (lookup_none_keys m k hn p hp)]
      rw [List.map_congr_left hc, List.map_id]
    rw [h1]
    simp

lemma mapSet_mapSet (m : List (String × α)) (k : String) (v : α) :
    mapSet (mapSet m k v) k v = mapSet m k v := by
  have hsome : ((mapSet m k v).lookup k).isSome := by
    rw [lookup_mapSet]; rfl
  rw [show mapSet (mapSet m k v) k v =
        if ((mapSet m k v).lookup k).isSome then
          (mapSet m k v).map (fun p => if p.1 = k then (k, v) else p)
        else mapSet m k v ++ [(k, v)] from rfl]
  rw [if_pos hsome]
  exact mapSet_fix m k v

lemma mem_setAdd_self (s : List String) (x : String) : x ∈ setAdd s x := by
  rw [show setAdd s x = if x ∈ s then s else s ++ [x] from rfl]
  split
  · assumption
  · simp

lemma setAdd_setAdd (s : List String) (x : String) :
    setAdd (setAdd s x) x = setAdd s x := by
  rw [show setAdd (setAdd s x) x =
        if x ∈ setAdd s x then setAdd s x else setAdd s x ++ [x] from rfl]
  rw [if_pos (mem_setAdd_self s x)]

lemma lookup_map_over_ne (m : List (String × α)) (k k' : String) (v : α)
    (h : k' ≠ k) :
    (m.map (fun p => if p.1 = k then (k, v) else p)).lookup k' = m.lookup k' := by
  induction m with
  | nil => rfl
  | cons p t ih =>
    obtain ⟨a, b⟩ := p
    by_cases ha : a = k
    · subst ha
      have hf : (if (a, b).1 = a then (a, v) else (a, b)) = (a, v) := by simp
      rw [List.map_cons, hf]
      have hka : (k' == a) = false := beq_eq_false_iff_ne.mpr h
      rw [List.lookup_cons, List.lookup_cons]
      rw [show (k' == (a, v).1) = false from hka]
      try rw [show (k' == (a, b).1) = false from hka]
      dsimp only
      exact ih
    · have hf : (if (a, b).1 = k then (k, v) else (a, b)) = (a, b) := by simp [ha]
      rw [List.map_cons, hf]
      rw [List.lookup_cons, List.lookup_cons]
      cases hka : (k' == (a, b).1) with
      | true => rfl
      | false => exact ih

lemma lookup_mapSet_ne (m : List (String × α)) (k k' : String) (v : α)
    (h : k' ≠ k) : (mapSet m k v).lookup k' = m.lookup k' := by
  rw [show mapSet m k v =
        if (m.lookup k).isSome then
          m.map (fun p => if p.1 = k then (k, v) else p)
        else m ++ [(k, v)] from rfl]
  split
  · exact lookup_map_over_ne m k k' v h
  · rw [List.lookup_append]
    have h1 : ([(k, v)] : List (String × α)).lookup k' = none := by
      simp [List.lookup, beq_eq_false_iff_ne.mpr h]
    rw [h1]
    cases m.lookup k' <;> rfl

lemma mem_mapSet_cases {m : List (String × α)} {k : String} {v : α} {kv : String × α}
    (h : kv ∈ mapSet m k v) : kv = (k, v) ∨ (kv ∈ m ∧ kv.1 ≠ k) := by
  rw [show mapSet m k v =
        if (m.lookup k).isSome then
          m.map (fun p => if p.1 = k then (k, v) else p)
        else m ++ [(k, v)] from rfl] at h
  split at h
  · obtain ⟨p, hp, hf⟩ := List.mem_map.mp h
    by_cases hpk : p.1 = k
    · left
      rw [← hf]
      simp [hpk]
    · right
      rw [← hf]
      simp only [hpk, if_false]
      exact ⟨hp, hpk⟩
  · rename_i hnone
    have hn : m.lookup k = none := by
      cases hl : m.lookup k with
      | none => rfl
      | some w => rw [hl] at hnone; simp at hnone
    rcases List.mem_append.mp h with hm | hnew
    · exact Or.inr ⟨hm, lookup_none_keys m k hn kv hm⟩
    · left
      simpa using hnew

lemma mapSet_keys (m : List (String × α)) (k : String) (v : α) :
    (mapSet m k v).map Prod.fst =
      if (m.lookup k).isSome then m.map Prod.fst else m.map Prod.fst ++ [k] := by
  rw [show mapSet m k v =
        if (m.lookup k).isSome then
          m.map (fun p => if p.1 = k then (k, v) else p)
        else m ++ [(k, v)] from rfl]
  split
  · rw [List.map_map]
    apply List.map_congr_left
    intro p _
    by_cases hpk : p.1 = k <;> simp [Function.comp, hpk]
  · rw [List.map_append]
    rfl

lemma mapSet_keys_nodup (m : List (String × α)) (k : String) (v : α)
    (h : (m.map Prod.fst).Nodup) : ((mapSet m k v).map Prod.fst).Nodup := by
  rw [mapSet_keys]
  split
  · exact h
  · rename_i hs
    have hn : m.lookup k = none := by
      cases hl : m.lookup k with
      | none => rfl
      | some w => rw [hl] at hs; simp at hs
    have hk : k ∉ m.map Prod.fst := by
      intro hmem
      obtain ⟨p, hp, hpk⟩ := List.mem_map.mp hmem
      exact lookup_none_keys m k hn p hp hpk
    simp [List.nodup_append, h, hk]

lemma filter_key_singleton (m : List (String × α)) (k : String)
    (hnd : (m.map Prod.fst).Nodup) (hp : (m.lookup k).isSome) :
    (m.filter (fun kv => kv.1 = k)).length = 1 := by
  induction m with
  | nil => simp at hp
  | cons q t ih =>
    obtain ⟨a, b⟩ := q
    rw [List.map_cons, List.nodup_cons] at hnd
    by_cases hak : a = k
    · subst hak
      have hat : t.filter (fun kv => kv.1 = a) = [] := by
        rw [List.filter_eq_nil_iff]
        intro kv hkv
        simp only [decide_eq_true_eq]
        intro hkva
        exact hnd.1 (List.mem_map.mpr ⟨kv, hkv, hkva⟩)
      simp [List.filter_cons, hat]
    · have hlt : (t.lookup k).isSome := by
        rw [List.lookup_cons, show (k == (a, b).1) = false from
          beq_eq_false_iff_ne.mpr (fun hk => hak hk.symm)] at hp
        exact hp
      have := ih hnd.2 hlt
      simp [List.filter_cons, hak, this]

end MapLemmas

/-! ## The stable sort -/

section SortLemmas

variable {α : Type} {le : α → α → Bool}

lemma insertLe_perm (le : α → α → Bool) (x : α) (l : List α) :
    (insertLe le x l).Perm (x :: l) := by
  induction l with
  | nil => exact List.Perm.refl _
  | cons y t ih =>
    unfold insertLe
    split
    · exact List.Perm.trans (List.Perm.cons y ih) (List.Perm.swap x y t)
    · exact List.Perm.refl _

lemma insFold_perm (le : α → α → Bool) :
    ∀ (l acc : List α),
      (l.foldl (fun acc x => insertLe le x acc) acc).Perm (acc ++ l) := by
  intro l
  induction l with
  | nil => intro acc; simp
  | cons x t ih =>
    intro acc
    rw [List.foldl_cons]
    refine List.Perm.trans (ih (insertLe le x acc)) ?_
    have h1 : (insertLe le x acc ++ t).Perm ((x :: acc) ++ t) :=
      (insertLe_perm le x acc).append_right t
    refine List.Perm.trans h1 ?_
    have h2 : ((x :: acc) ++ t) = x :: (acc ++ t) := rfl
    rw [h2]
    exact (List.perm_middle).symm

lemma stableSort_perm (le : α → α → Bool) (l : List α) :
    (stableSort le l).Perm l := by
  have := insFold_perm le l []
  simpa [stableSort] using this

lemma insertLe_sorted
    (htrans : ∀ a b c, le a b = true → le b c = true → le a c = true)
    (htotal : ∀ a b, (le a b || le b a) = true) (x : α) :
    ∀ {l : List α}, l.Pairwise (fun a b => le a b = true) →
      (insertLe le x l).Pairwise (fun a b => le a b = true) := by
  intro l
  induction l with
  | nil =>
    intro _
    simp [insertLe]
  | cons y t ih =>
    intro h
    rw [List.pairwise_cons] at h
    obtain ⟨hy, ht⟩ := h
    unfold insertLe
    split
    · rename_i hyx
      rw [List.pairwise_cons]
      constructor
      · intro b hb
        have hbmem : b ∈ x :: t := (insertLe_perm le x t).subset hb
        rcases List.mem_cons.mp hbmem with rfl | hbt
        · exact hyx
        · exact hy b hbt
      · exact ih ht
    · rename_i hyx
      have hxy : le x y = true := by
        have hor := htotal y x
        rw [Bool.or_eq_true] at hor
        rcases hor with h1 | h1
        · exact absurd h1 hyx
        · exact h1
      rw [List.pairwise_cons]
      constructor
      · intro b hb
        rcases List.mem_cons.mp hb with rfl | hbt
        · exact hxy
        · exact htrans x y b hxy (hy b hbt)
      · exact List.pairwise_cons.mpr ⟨hy, ht⟩

lemma stableSort_sorted
    (htrans : ∀ a b c, le a b = true → le b c = true → le a c = true)
    (htotal : ∀ a b, (le a b || le b a) = true) (l : List α) :
    (stableSort le l).Pairwise (fun a b => le a b = true) := by
  have hgen : ∀ (l acc : List α), acc.Pairwise (fun a b => le a b = true) →
      (l.foldl (fun acc x => insertLe le x acc) acc).Pairwise
        (fun a b => le a b = true) := by
    intro l
    induction l with
    | nil => intro acc h; exact h
    | cons x t ih =>
      intro acc h
      exact ih (insertLe le x acc) (insertLe_sorted htrans htotal x h)
  exact hgen l [] List.Pairwise.nil

end SortLemmas


/-! ## Idempotence of the merge operations -/

section MergeIdem

lemma posUpdate_self (e : P1.Item) (t l : Int)
    (ht : e.ptop = t) (hl : e.pleft = l) : P1.posUpdate e t l = e := by
  unfold P1.posUpdate
  rw [if_neg, if_neg]
  · intro h
    rcases h.2 with h0 | hlt
    · exact h.1 (hl ▸ h0)
    · rw [hl] at hlt; exact lt_irrefl l hlt
  · intro h
    rcases h.2 with h0 | hlt
    · exact h.1 (ht ▸ h0)
    · rw [ht] at hlt; exact lt_irrefl t hlt

lemma updTwice (x t : Int) :
    (if t ≠ 0 ∧ ((if t ≠ 0 ∧ (x = 0 ∨ t < x) then t else x) = 0 ∨
        t < (if t ≠ 0 ∧ (x = 0 ∨ t < x) then t else x)) then t
     else (if t ≠ 0 ∧ (x = 0 ∨ t < x) then t else x)) =
    (if t ≠ 0 ∧ (x = 0 ∨ t < x) then t else x) := by
  split_ifs <;> omega

lemma posUpdate_posUpdate (e : P1.Item) (t l : Int) :
    P1.posUpdate (P1.posUpdate e t l) t l = P1.posUpdate e t l := by
  unfold P1.posUpdate
  rw [updTwice e.ptop t, updTwice e.pleft l]

lemma mergeObs_idem (m : List (String × P1.Item)) (o : P1.RawTile) :
    P1.mergeObs (P1.mergeObs m o) o = P1.mergeObs m o := by
  by_cases h1 : o.src = ""
  · simp [P1.mergeObs, h1]
  by_cases h2 : P1.skipAvatarTest o.src
  · simp [P1.mergeObs, h1, h2]
  cases h3 : P1.normUrl o.src with
  | none => simp [P1.mergeObs, h1, h2, h3]
  | some n0 =>
    simp only [P1.mergeObs, h1, h2, h3, if_neg, if_false, Bool.false_eq_true]
    cases h4 : m.lookup (P1.keyOf o (P1.finalSrcOf o n0)
        (P1.playbackIdOf o (P1.finalSrcOf o n0))) with
    | none =>
      dsimp only
      rw [lookup_mapSet]
      dsimp only
      rw [posUpdate_self (P1.freshItem o (P1.finalSrcOf o n0)) o.top o.left rfl rfl]
      exact mapSet_mapSet _ _ _
    | some e =>
      dsimp only
      rw [lookup_mapSet]
      dsimp only
      rw [posUpdate_posUpdate]
      exact mapSet_mapSet _ _ _

lemma rankStep_rankStep (key : String) (cand : P2.Item)
    (m : List (String × P2.Item)) :
    P2.rankStep key cand (P2.rankStep key cand m) = P2.rankStep key cand m := by
  unfold P2.rankStep
  cases h : m.lookup key with
  | none =>
    dsimp only
    rw [lookup_mapSet]
    dsimp only
    rw [if_neg (lt_irrefl _)]
  | some prev =>
    dsimp only
    by_cases hlt : cand.top * 100000 + cand.left < prev.top * 100000 + prev.left
    · rw [if_pos hlt, lookup_mapSet]
      dsimp only
      rw [if_neg (lt_irrefl _)]
    · rw [if_neg hlt, h]
      dsimp only
      rw [if_neg hlt]

lemma mergeTile_idem (st : P2.State) (r : P2.RawTile) :
    P2.mergeTile (P2.mergeTile st r) r = P2.mergeTile st r := by
  cases h1 : P2.normaliseURL r.src P2.COSMOS_URL with
  | none => simp [P2.mergeTile, h1]
  | some src0 =>
    by_cases h2 : P2.isExcludedUrl src0
    · simp [P2.mergeTile, h1, h2]
    cases h3 : P2.muxPlaybackIdFromThumb src0 with
    | some pid =>
      simp only [P2.mergeTile, h1, h2, h3, if_neg, if_false, Bool.false_eq_true]
      simp [setAdd_setAdd]
    | none =>
      simp only [P2.mergeTile, h1, h2, h3, if_neg, if_false, Bool.false_eq_true]
      simp [rankStep_rankStep]

end MergeIdem

/-! ## Character-level lemmas about the ASCII lower-casing -/

section CharLemmas

lemma strExt {a b : String} (h : a.data = b.data) : a = b := by
  cases a; cases b; exact congrArg String.mk h

lemma charToNat_ofNat (n : Nat) (h : n.isValidChar) : (Char.ofNat n).toNat = n := by
  have h32 : n < 4294967296 := by
    rcases h with h1 | ⟨h1, h2⟩ <;> omega
  simp [Char.ofNat, h, Char.ofNatAux, Char.toNat, UInt32.toNat, BitVec.toNat_ofNat,
    Nat.mod_eq_of_lt h32]

lemma char_eq_iff (a b : Char) : a = b ↔ a.toNat = b.toNat :=
  Char.ext_iff.trans UInt32.ext_iff

lemma toLower_toNat (c : Char) :
    (Char.toLower c).toNat =
      if 65 ≤ c.toNat ∧ c.toNat ≤ 90 then c.toNat + 32 else c.toNat := by
  by_cases h : 65 ≤ c.toNat ∧ c.toNat ≤ 90
  · rw [if_pos h]
    unfold Char.toLower
    dsimp only
    rw [if_pos ⟨h.1, h.2⟩]
    exact charToNat_ofNat _ (Or.inl (by omega))
  · rw [if_neg h]
    unfold Char.toLower
    dsimp only
    rw [if_neg h]

lemma toLower_idem (c : Char) : c.toLower.toLower = c.toLower := by
  rw [char_eq_iff, toLower_toNat, toLower_toNat]
  split_ifs <;> omega

lemma toLower_eq_low_iff {c t : Char} (ht : t.toNat < 65) : c.toLower = t ↔ c = t := by
  rw [char_eq_iff, char_eq_iff, toLower_toNat]
  split_ifs with h <;> omega

lemma isAlpha_iff (c : Char) :
    c.isAlpha = true ↔ (65 ≤ c.toNat ∧ c.toNat ≤ 90) ∨ (97 ≤ c.toNat ∧ c.toNat ≤ 122) := by
  unfold Char.isAlpha Char.isUpper Char.isLower Char.toNat
  simp [UInt32.le_def]
  constructor
  · rintro (⟨h1, h2⟩ | ⟨h1, h2⟩) <;> [left; right] <;> exact ⟨h1, h2⟩
  · rintro (⟨h1, h2⟩ | ⟨h1, h2⟩) <;> [left; right] <;> exact ⟨h1, h2⟩

lemma isDigit_iff (c : Char) :
    c.isDigit = true ↔ 48 ≤ c.toNat ∧ c.toNat ≤ 57 := by
  unfold Char.isDigit Char.toNat
  simp [UInt32.le_def]
  constructor <;> rintro ⟨h1, h2⟩ <;> exact ⟨h1, h2⟩

lemma isAlpha_toLower (c : Char) (h : c.isAlpha = true) : c.toLower.isAlpha = true := by
  rw [isAlpha_iff] at h ⊢
  rw [toLower_toNat]
  split_ifs with hc <;> omega

lemma toLower_fix_low {c : Char} (h : c.toNat < 65) : c.toLower = c := by
  rw [char_eq_iff, toLower_toNat, if_neg (by omega)]

lemma schemeChar_toLower (c : Char) (h : schemeChar c = true) :
    schemeChar c.toLower = true := by
  have h43 : ('+' : Char).toNat = 43 := by decide
  have h45 : ('-' : Char).toNat = 45 := by decide
  have h46 : ('.' : Char).toNat = 46 := by decide
  simp only [schemeChar, Bool.or_eq_true, decide_eq_true_eq, isAlpha_iff, isDigit_iff,
    char_eq_iff, h43, h45, h46, toLower_toNat] at h ⊢
  split_ifs <;> omega

lemma schemeOk_map_toLower (l : List Char) (h : schemeOk l = true) :
    schemeOk (l.map Char.toLower) = true := by
  cases l with
  | nil => simp [schemeOk] at h
  | cons c rest =>
    unfold schemeOk at h ⊢
    simp only [List.map_cons, Bool.and_eq_true, List.all_eq_true] at h ⊢
    refine ⟨isAlpha_toLower c h.1, ?_⟩
    intro x hx
    obtain ⟨y, hy, rfl⟩ := List.mem_map.mp hx
    exact schemeChar_toLower y (h.2 y hy)

lemma hostStop_false_iff (c : Char) :
    hostStop c = false ↔ c.toNat ≠ 47 ∧ c.toNat ≠ 63 ∧ c.toNat ≠ 35 := by
  have h47 : ('/' : Char).toNat = 47 := by decide
  have h63 : ('?' : Char).toNat = 63 := by decide
  have h35 : ('#' : Char).toNat = 35 := by decide
  rw [Bool.eq_false_iff, Ne]
  simp only [hostStop, Bool.or_eq_true, decide_eq_true_eq, char_eq_iff, h47, h63, h35]
  tauto

lemma pathStop_false_iff (c : Char) :
    pathStop c = false ↔ c.toNat ≠ 63 ∧ c.toNat ≠ 35 := by
  have h63 : ('?' : Char).toNat = 63 := by decide
  have h35 : ('#' : Char).toNat = 35 := by decide
  rw [Bool.eq_false_iff, Ne]
  simp only [pathStop, Bool.or_eq_true, decide_eq_true_eq, char_eq_iff, h63, h35]
  tauto

lemma schemeStop_false_iff (c : Char) :
    schemeStop c = false ↔ c.toNat ≠ 58 ∧ c.toNat ≠ 47 ∧ c.toNat ≠ 63 ∧ c.toNat ≠ 35 := by
  have h58 : (':' : Char).toNat = 58 := by decide
  have h47 : ('/' : Char).toNat = 47 := by decide
  have h63 : ('?' : Char).toNat = 63 := by decide
  have h35 : ('#' : Char).toNat = 35 := by decide
  rw [Bool.eq_false_iff, Ne]
  simp only [schemeStop, hostStop, Bool.or_eq_true, decide_eq_true_eq, char_eq_iff,
    h58, h47, h63, h35]
  tauto

lemma hostStop_toLower (c : Char) (h : hostStop c = false) :
    hostStop c.toLower = false := by
  rw [hostStop_false_iff] at h ⊢
  rw [toLower_toNat]
  split_ifs <;> omega

lemma pathStop_toLower (c : Char) (h : pathStop c = false) :
    pathStop c.toLower = false := by
  rw [pathStop_false_iff] at h ⊢
  rw [toLower_toNat]
  split_ifs <;> omega

lemma schemeStop_toLower (c : Char) (h : schemeStop c = false) :
    schemeStop c.toLower = false := by
  rw [schemeStop_false_iff] at h ⊢
  rw [toLower_toNat]
  split_ifs <;> omega

end CharLemmas

/-! ## Lemmas about takeWhile/dropWhile splitting -/

section SplitLemmas

lemma takeWhile_all {p : Char → Bool} {A : List Char} (h : ∀ a ∈ A, p a = true) :
    A.takeWhile p = A := by
  induction A with
  | nil => rfl
  | cons c t ih =>
    rw [List.takeWhile_cons, h c (List.mem_cons_self c t)]
    simp only [if_true]
    rw [ih (fun a ha => h a (List.mem_cons_of_mem c ha))]

lemma dropWhile_all {p : Char → Bool} {A : List Char} (h : ∀ a ∈ A, p a = true) :
    A.dropWhile p = [] := by
  induction A with
  | nil => rfl
  | cons c t ih =>
    rw [List.dropWhile_cons, h c (List.mem_cons_self c t)]
    simp only [if_true]
    exact ih (fun a ha => h a (List.mem_cons_of_mem c ha))

lemma takeWhile_append_stop {p : Char → Bool} (A : List Char) {c : Char} (B : List Char)
    (hA : ∀ a ∈ A, p a = true) (hc : p c = false) :
    (A ++ c :: B).takeWhile p = A := by
  induction A with
  | nil => simp [List.takeWhile_cons, hc]
  | cons a t ih =>
    rw [List.cons_append, List.takeWhile_cons, hA a (List.mem_cons_self a t)]
    simp only [if_true]
    rw [ih (fun x hx => hA x (List.mem_cons_of_mem a hx))]

lemma dropWhile_append_stop {p : Char → Bool} (A : List Char) {c : Char} (B : List Char)
    (hA : ∀ a ∈ A, p a = true) (hc : p c = false) :
    (A ++ c :: B).dropWhile p = c :: B := by
  induction A with
  | nil => simp [List.dropWhile_cons, hc]
  | cons a t ih =>
    rw [List.cons_append, List.dropWhile_cons, hA a (List.mem_cons_self a t)]
    simp only [if_true]
    exact ih (fun x hx => hA x (List.mem_cons_of_mem a hx))

lemma takeWhile_head_eq {p : Char → Bool} {l r : List Char} {c : Char}
    (h : l.takeWhile p = c :: r) : ∃ t, l = c :: t := by
  cases l with
  | nil => simp at h
  | cons a t =>
    rw [List.takeWhile_cons] at h
    by_cases ha : p a
    · rw [ha] at h
      simp only [if_true] at h
      exact ⟨t, by rw [(List.cons.injEq _ _ _ _).mp h |>.1]⟩
    · simp [ha] at h

lemma dropWhile_head_false {p : Char → Bool} {l r : List Char} {c : Char}
    (h : l.dropWhile p = c :: r) : p c = false := by
  induction l with
  | nil => simp at h
  | cons a t ih =>
    rw [List.dropWhile_cons] at h
    by_cases ha : p a
    · rw [ha] at h
      simp only [if_true] at h
      exact ih h
    · simp only [ha, Bool.false_eq_true, if_false] at h
      rw [← (List.cons.injEq _ _ _ _).mp h |>.1]
      exact Bool.eq_false_iff.mpr ha

end SplitLemmas

/-! ## Structural facts about the URL parser -/

section ParseLemmas

lemma strAppend_empty (s : String) : s ++ "" = s := by
  apply strExt
  show s.data ++ [] = s.data
  simp

lemma hostStop_true_cases {c : Char} (h : hostStop c = true) :
    c.toNat = 47 ∨ c.toNat = 63 ∨ c.toNat = 35 := by
  by_contra hc
  push_neg at hc
  rw [(hostStop_false_iff c).mpr ⟨hc.1, hc.2.1, hc.2.2⟩] at h
  exact Bool.false_ne_true h

lemma startsWith_slash {s : String} (h : strStartsWith s "/" = true) :
    ∃ r, s.data = '/' :: r := by
  unfold strStartsWith at h
  cases hd : s.data with
  | nil =>
    rw [hd] at h
    have h2 : List.isPrefixOf ['/'] ([] : List Char) = true := h
    simp [List.isPrefixOf] at h2
  | cons c r =>
    rw [hd] at h
    have h2 : List.isPrefixOf ['/'] (c :: r) = true := h
    have hc : ('/' == c) = true := by simpa [List.isPrefixOf] using h2
    exact ⟨r, by rw [← beq_iff_eq.mp hc]⟩

lemma protoWF_build (P0 : List Char) (hok : schemeOk P0 = true)
    (hstop : ∀ c ∈ P0, schemeStop c = false) :
    protoWF (lowerStr (String.mk P0) ++ ":") := by
  refine ⟨P0.map Char.toLower, rfl, schemeOk_map_toLower _ hok, ?_, ?_⟩
  · intro c hc
    obtain ⟨y, hy, rfl⟩ := List.mem_map.mp hc
    exact schemeStop_toLower y (hstop y hy)
  · rw [List.map_map]
    exact List.map_congr_left (fun a _ => toLower_idem a)

lemma hostWF_build (H0 : List Char) (hne : H0 ≠ [])
    (hstop : ∀ c ∈ H0, hostStop c = false) :
    hostWF (lowerStr (String.mk H0)) := by
  refine ⟨?_, ?_, ?_⟩
  · show H0.map Char.toLower ≠ []
    simpa using hne
  · intro c hc
    obtain ⟨y, hy, rfl⟩ := List.mem_map.mp hc
    exact hostStop_toLower y (hstop y hy)
  · show (H0.map Char.toLower).map Char.toLower = _
    rw [List.map_map]
    exact List.map_congr_left (fun a _ => toLower_idem a)

lemma pathWF_parse (r3 : List Char) :
    pathWF (if ((r3.dropWhile (fun c => !hostStop c)).takeWhile
                (fun c => !pathStop c)).isEmpty then "/"
            else String.mk ((r3.dropWhile (fun c => !hostStop c)).takeWhile
                (fun c => !pathStop c))) := by
  by_cases hpe : ((r3.dropWhile (fun c => !hostStop c)).takeWhile
      (fun c => !pathStop c)).isEmpty
  · rw [if_pos hpe]
    exact ⟨⟨[], rfl⟩, by decide⟩
  · rw [if_neg hpe]
    have hne2 : (r3.dropWhile (fun c => !hostStop c)).takeWhile
        (fun c => !pathStop c) ≠ [] := by
      apply List.isEmpty_eq_false.mp
      revert hpe
      cases ((r3.dropWhile (fun c => !hostStop c)).takeWhile (fun c => !pathStop c)).isEmpty <;> simp
    obtain ⟨c, rest, hcr⟩ := List.exists_cons_of_ne_nil hne2
    have hcPath : pathStop c = false := by
      have hmem : c ∈ (r3.dropWhile (fun c => !hostStop c)).takeWhile
          (fun c => !pathStop c) := by
        rw [hcr]; exact List.mem_cons_self c rest
      simpa using List.mem_takeWhile_imp hmem
    have hcHost : hostStop c = true := by
      obtain ⟨t, ht⟩ := takeWhile_head_eq hcr
      have := dropWhile_head_false ht
      simpa using this
    have hc47 : c = '/' := by
      rw [char_eq_iff]
      have h63 : c.toNat ≠ 63 := ((pathStop_false_iff c).mp hcPath).1
      have h35 : c.toNat ≠ 35 := ((pathStop_false_iff c).mp hcPath).2
      rcases hostStop_true_cases hcHost with h | h | h
      · rw [h]; decide
      · exact absurd h h63
      · exact absurd h h35
    refine ⟨⟨rest, ?_⟩, ?_⟩
    · show (r3.dropWhile (fun c => !hostStop c)).takeWhile (fun c => !pathStop c)
          = '/' :: rest
      rw [hcr, hc47]
    · intro x hx
      simpa using List.mem_takeWhile_imp hx

lemma parseHostful_parts {p r3 : List Char} {u : Url} (h : parseHostful p r3 = some u)
    (hok : schemeOk p = true) (hpstop : ∀ c ∈ p, schemeStop c = false) :
    protoWF u.protocol ∧ hostWF u.host ∧ pathWF u.pathname := by
  simp only [parseHostful] at h
  split at h
  · exact absurd h (by simp)
  · rename_i hne
    have hu : u = _ := (Option.some_inj.mp h).symm
    rw [hu]
    refine ⟨protoWF_build p hok hpstop, ?_, pathWF_parse r3⟩
    refine hostWF_build _ ?_ ?_
    · apply List.isEmpty_eq_false.mp
      revert hne
      cases (r3.takeWhile (fun c => !hostStop c)).isEmpty <;> simp
    · intro c hc
      simpa using List.mem_takeWhile_imp hc

lemma parse_parts {s : String} {u : Url} (h : parseURL s = some u)
    (hb : u.bare = false) : protoWF u.protocol ∧ hostWF u.host ∧ pathWF u.pathname := by
  have hpstop : ∀ c ∈ s.data.takeWhile (fun c => !schemeStop c), schemeStop c = false := by
    intro c hc
    simpa using List.mem_takeWhile_imp hc
  simp only [parseURL, parseChars] at h
  split at h
  · split at h
    · split at h
      · rename_i hok
        split at h
        · split at h
          · split at h
            · exact parseHostful_parts h hok hpstop
            · rw [← Option.some_inj.mp h] at hb
              simp [parseBare] at hb
          · rw [← Option.some_inj.mp h] at hb
            simp [parseBare] at hb
        · rw [← Option.some_inj.mp h] at hb
          simp [parseBare] at hb
      · exact absurd h (by simp)
    · exact absurd h (by simp)
  · exact absurd h (by simp)

lemma parse_rebuild (u : Url) (h1 : protoWF u.protocol) (h2 : hostWF u.host)
    (h3 : pathWF u.pathname) :
    parseURL (u.protocol ++ "//" ++ u.host ++ u.pathname) =
      some { protocol := u.protocol, host := u.host, pathname := u.pathname,
             search := "", hash := "", bare := false } := by
  obtain ⟨P, hPd, hPok, hPstop, hPlow⟩ := h1
  obtain ⟨hHne, hHstop, hHlow⟩ := h2
  obtain ⟨⟨t, hPt⟩, hPathStop⟩ := h3
  have hdata : (u.protocol ++ "//" ++ u.host ++ u.pathname).data
      = P ++ ':' :: '/' :: '/' :: (u.host.data ++ '/' :: t) := by
    show ((u.protocol.data ++ ['/', '/']) ++ u.host.data) ++ u.pathname.data = _
    rw [hPd, hPt]
    simp
  have hPpred : ∀ a ∈ P, (fun c => !schemeStop c) a = true := by
    intro a ha; simp [hPstop a ha]
  have hHpred : ∀ a ∈ u.host.data, (fun c => !hostStop c) a = true := by
    intro a ha; simp [hHstop a ha]
  simp only [parseURL, parseChars]
  rw [hdata]
  rw [takeWhile_append_stop P _ hPpred (by decide),
      dropWhile_append_stop P _ hPpred (by decide)]
  dsimp only
  rw [if_pos rfl, if_pos hPok, if_pos rfl, if_pos rfl]
  simp only [parseHostful]
  rw [takeWhile_append_stop u.host.data _ hHpred (by decide),
      dropWhile_append_stop u.host.data _ hHpred (by decide)]
  have hHempty : u.host.data.isEmpty = false := by
    rw [List.isEmpty_eq_false]; exact hHne
  rw [hHempty]
  rw [if_neg Bool.false_ne_true]
  have hPathPred2 : ∀ a ∈ ('/' :: t : List Char), (fun c => !pathStop c) a = true := by
    intro a ha
    have : a ∈ u.pathname.data := by rw [hPt]; exact ha
    simp [hPathStop a this]
  rw [takeWhile_all hPathPred2, dropWhile_all hPathPred2]
  have hproto : lowerStr (String.mk P) ++ ":" = u.protocol := by
    apply strExt
    show P.map Char.toLower ++ [':'] = u.protocol.data
    rw [hPlow, hPd]
  have hhost : lowerStr (String.mk u.host.data) = u.host := by
    apply strExt
    show u.host.data.map Char.toLower = u.host.data
    exact hHlow
  have hpath : String.mk ('/' :: t) = u.pathname := by
    apply strExt
    show '/' :: t = u.pathname.data
    rw [hPt]
  rw [show (('/' :: t : List Char).isEmpty) = false from rfl,
      if_neg Bool.false_ne_true]
  rw [hproto, hhost, hpath]
  rfl

lemma mk_data (s : String) : String.mk s.data = s := strExt rfl

lemma splitOnChar_cons_sep (t : List Char) :
    splitOnChar '/' ('/' :: t) = [] :: splitOnChar '/' t := by
  simp [splitOnChar]

lemma splitOnChar_sepfree {sep : Char} {cs : List Char} (h : ∀ c ∈ cs, c ≠ sep) :
    splitOnChar sep cs = [cs] := by
  induction cs with
  | nil => rfl
  | cons c t ih =>
    have hc : ¬(c = sep) := h c (List.mem_cons_self c t)
    have ht := ih (fun x hx => h x (List.mem_cons_of_mem _ hx))
    simp [splitOnChar, hc, ht]

lemma splitOnChar_append_sep {sep : Char} (A B : List Char) (hA : ∀ c ∈ A, c ≠ sep) :
    splitOnChar sep (A ++ sep :: B) = A :: splitOnChar sep B := by
  induction A with
  | nil => simp [splitOnChar]
  | cons a t ih =>
    have ha : ¬(a = sep) := hA a (List.mem_cons_self a t)
    have ht := ih (fun x hx => hA x (List.mem_cons_of_mem _ hx))
    simp [splitOnChar, ha, ht]

lemma joinStrings_data_chars {l : List String} {c : Char}
    (h : c ∈ (joinStrings "/" l).data) : (∃ x ∈ l, c ∈ x.data) ∨ c = '/' := by
  induction l with
  | nil => simp [joinStrings] at h
  | cons x rest ih =>
    cases rest with
    | nil =>
      left
      exact ⟨x, List.mem_cons_self x [], by simpa [joinStrings] using h⟩
    | cons y rs =>
      have hd : (joinStrings "/" (x :: y :: rs)).data
          = x.data ++ '/' :: (joinStrings "/" (y :: rs)).data := by
        show (x.data ++ ['/']) ++ (joinStrings "/" (y :: rs)).data = _
        simp
      rw [hd] at h
      rcases List.mem_append.mp h with hx | hy
      · exact Or.inl ⟨x, List.mem_cons_self x _, hx⟩
      · rcases List.mem_cons.mp hy with rfl | hj
        · exact Or.inr rfl
        · rcases ih hj with ⟨z, hz, hcz⟩ | hsl
          · exact Or.inl ⟨z, List.mem_cons_of_mem _ hz, hcz⟩
          · exact Or.inr hsl

lemma pathSegs_join (segs : List String) (hne : ∀ x ∈ segs, x ≠ "")
    (hnosl : ∀ x ∈ segs, ∀ c ∈ x.data, c ≠ '/') :
    pathSegs ("/" ++ joinStrings "/" segs) = segs := by
  induction segs with
  | nil => rfl
  | cons x rest ih =>
    cases rest with
    | nil =>
      unfold pathSegs
      rw [show ("/" ++ joinStrings "/" [x]).data = '/' :: x.data from rfl]
      rw [splitOnChar_cons_sep]
      rw [splitOnChar_sepfree (hnosl x (List.mem_cons_self x []))]
      simp [mk_data, hne x (List.mem_cons_self x [])]
    | cons y rs =>
      have hIH := ih (fun z hz => hne z (List.mem_cons_of_mem _ hz))
        (fun z hz => hnosl z (List.mem_cons_of_mem _ hz))
      have hd : ("/" ++ joinStrings "/" (x :: y :: rs)).data
          = '/' :: (x.data ++ '/' :: (joinStrings "/" (y :: rs)).data) := by
        show '/' :: ((x.data ++ ['/']) ++ (joinStrings "/" (y :: rs)).data) = _
        simp
      have hIH2 : ((splitOnChar '/' (joinStrings "/" (y :: rs)).data).map String.mk).filter
          (fun s => s ≠ "") = y :: rs := by
        have : pathSegs ("/" ++ joinStrings "/" (y :: rs)) = y :: rs := hIH
        unfold pathSegs at this
        rw [show ("/" ++ joinStrings "/" (y :: rs)).data
              = '/' :: (joinStrings "/" (y :: rs)).data from rfl,
            splitOnChar_cons_sep] at this
        simpa using this
      unfold pathSegs
      rw [hd, splitOnChar_cons_sep,
          splitOnChar_append_sep _ _ (hnosl x (List.mem_cons_self x _))]
      simp only [List.map_cons, List.filter_cons]
      rw [show ((String.mk [] ≠ "") : Bool) = false from by decide]
      rw [show ((String.mk x.data ≠ "") : Bool) = true from by
        simp [mk_data, hne x (List.mem_cons_self x _)]]
      simp only [mk_data]
      rw [show ((splitOnChar '/' (joinStrings "/" (y :: rs)).data).map String.mk).filter
            (fun s => s ≠ "") = y :: rs from hIH2]
      simp

lemma parseRel_parts {s base : String} {u : Url} (h : parseURLRel s base = some u)
    (hb : u.bare = false) : protoWF u.protocol ∧ hostWF u.host ∧ pathWF u.pathname := by
  unfold parseURLRel at h
  cases hp : parseURL s with
  | some u0 =>
    rw [hp] at h
    dsimp only at h
    rw [Option.some_inj] at h
    subst h
    exact parse_parts hp hb
  | none =>
    rw [hp] at h
    dsimp only at h
    split at h
    · rename_i hguard
      cases hpb : parseURL base with
      | none => rw [hpb] at h; exact absurd h (by simp)
      | some b =>
        rw [hpb] at h
        dsimp only at h
        have hu : u = _ := (Option.some_inj.mp h).symm
        have hbb : b.bare = false := by
          rw [hu] at hb; exact hb
        obtain ⟨hproto, hhost, _⟩ := parse_parts hpb hbb
        rw [hu]
        refine ⟨hproto, hhost, ?_, ?_⟩
        · have hstart : strStartsWith s "/" = true := by
            have := hguard
            simp only [Bool.and_eq_true] at this
            exact this.1
          obtain ⟨r, hr⟩ := startsWith_slash hstart
          refine ⟨r.takeWhile (fun c => !pathStop c), ?_⟩
          show s.data.takeWhile (fun c => !pathStop c) = _
          rw [hr, List.takeWhile_cons]
          simp [pathStop]
        · intro c hc
          have hc2 : c ∈ s.data.takeWhile (fun c => !pathStop c) := hc
          simpa using List.mem_takeWhile_imp hc2
    · exact absurd h (by simp)

lemma splitOnChar_ne_nil (sep : Char) (cs : List Char) : splitOnChar sep cs ≠ [] := by
  induction cs with
  | nil => simp [splitOnChar]
  | cons c t ih =>
    by_cases hc : c = sep
    · simp [splitOnChar, hc]
    · cases hsp : splitOnChar sep t with
      | nil => exact absurd hsp ih
      | cons g gs => simp [splitOnChar, hc, hsp]

lemma splitOnChar_mem_chars {sep : Char} :
    ∀ {cs g : List Char}, g ∈ splitOnChar sep cs → ∀ c ∈ g, c ∈ cs ∧ c ≠ sep := by
  intro cs
  induction cs with
  | nil =>
    intro g hg c hc
    simp [splitOnChar] at hg
    subst hg
    simp at hc
  | cons a t ih =>
    intro g hg c hc
    by_cases ha : a = sep
    · rw [show splitOnChar sep (a :: t) = [] :: splitOnChar sep t from by
          simp [splitOnChar, ha]] at hg
      rcases List.mem_cons.mp hg with rfl | hg2
      · simp at hc
      · obtain ⟨h1, h2⟩ := ih hg2 c hc
        exact ⟨List.mem_cons_of_mem _ h1, h2⟩
    · cases hsp : splitOnChar sep t with
      | nil => exact absurd hsp (splitOnChar_ne_nil sep t)
      | cons g0 gs =>
        rw [show splitOnChar sep (a :: t) = (a :: g0) :: gs from by
            simp [splitOnChar, ha, hsp]] at hg
        rcases List.mem_cons.mp hg with rfl | hg2
        · rcases List.mem_cons.mp hc with rfl | hc2
          · exact ⟨List.mem_cons_self c t, ha⟩
          · obtain ⟨h1, h2⟩ := ih (by rw [hsp]; exact List.mem_cons_self g0 gs) c hc2
            exact ⟨List.mem_cons_of_mem _ h1, h2⟩
        · obtain ⟨h1, h2⟩ := ih (by rw [hsp]; exact List.mem_cons_of_mem _ hg2) c hc
          exact ⟨List.mem_cons_of_mem _ h1, h2⟩

lemma pathSegs_chars {p x : String} (hx : x ∈ pathSegs p) :
    ∀ c ∈ x.data, c ∈ p.data ∧ c ≠ '/' := by
  unfold pathSegs at hx
  obtain ⟨hx1, _⟩ := List.mem_filter.mp hx
  obtain ⟨g, hg, rfl⟩ := List.mem_map.mp hx1
  intro c hc
  exact splitOnChar_mem_chars hg c hc

lemma pathSegs_ne_empty {p x : String} (hx : x ∈ pathSegs p) : x ≠ "" := by
  unfold pathSegs at hx
  have := (List.mem_filter.mp hx).2
  simpa using this

lemma parse_bare_host {s : String} {u : Url} (h : parseURL s = some u) :
    u.bare = true → u.host = "" := by
  intro hb
  simp only [parseURL, parseChars] at h
  split at h
  · split at h
    · split at h
      · split at h
        · split at h
          · split at h
            · -- hostful: bare is false, contradiction
              simp only [parseHostful] at h
              split at h
              · exact absurd h (by simp)
              · rw [← Option.some_inj.mp h] at hb
                simp at hb
            · rw [← Option.some_inj.mp h]
              rfl
          · rw [← Option.some_inj.mp h]
            rfl
        · rw [← Option.some_inj.mp h]
          rfl
      · exact absurd h (by simp)
    · exact absurd h (by simp)
  · exact absurd h (by simp)

lemma toStr_flat {v : Url} (hb : v.bare = false) (hs : v.search = "") (hh : v.hash = "") :
    v.toStr = v.protocol ++ "//" ++ v.host ++ v.pathname := by
  unfold Url.toStr
  rw [hb, hs, hh]
  rw [if_neg Bool.false_ne_true]
  rw [strAppend_empty, strAppend_empty]
  simp [String.append_assoc]

lemma upgradeP2_segs {src0 : String} {u : Url} (h : parseURL src0 = some u)
    (hmux : lowerStr u.host = "stream.mux.com")
    (hseg : pathSegs u.pathname ≠ []) :
    P2.upgradeMuxLowToHigh src0 =
      Url.toStr { u with
        pathname := "/" ++ joinStrings "/"
          (match (pathSegs u.pathname).get? 1 with
           | some s1 =>
             if strEndsWith (lowerStr s1) "low.mp4" then
               (pathSegs u.pathname).set 1 "high.mp4"
             else pathSegs u.pathname
           | none => pathSegs u.pathname),
        search := "", hash := "" } := by
  unfold P2.upgradeMuxLowToHigh
  rw [h]
  dsimp only
  have hmm : ¬(lowerStr u.host ≠ "stream.mux.com") := by
    rw [hmux]; exact fun hc => hc rfl
  rw [if_neg hmm]
  rw [if_neg (by simpa [List.length_eq_zero] using hseg)]

lemma reparse_of_segs {u : Url} (hbare : u.bare = false) (hproto : protoWF u.protocol)
    (hhost : hostWF u.host) (segs2 : List String)
    (hne2 : ∀ x ∈ segs2, x ≠ "")
    (hchars : ∀ x ∈ segs2, ∀ c ∈ x.data, pathStop c = false ∧ c ≠ '/') :
    parseURL (Url.toStr { u with pathname := "/" ++ joinStrings "/" segs2,
                                 search := "", hash := "" }) =
      some { protocol := u.protocol, host := u.host,
             pathname := "/" ++ joinStrings "/" segs2,
             search := "", hash := "", bare := false } ∧
    pathSegs ("/" ++ joinStrings "/" segs2) = segs2 := by
  have hPW : pathWF ("/" ++ joinStrings "/" segs2) := by
    constructor
    · exact ⟨(joinStrings "/" segs2).data, rfl⟩
    · intro c hc
      have hc2 : c ∈ '/' :: (joinStrings "/" segs2).data := hc
      rcases List.mem_cons.mp hc2 with rfl | hcj
      · decide
      · rcases joinStrings_data_chars hcj with ⟨x, hx, hcx⟩ | rfl
        · exact (hchars x hx c hcx).1
        · decide
  constructor
  · have hts :
        Url.toStr { u with
                    pathname := "/" ++ joinStrings "/" segs2, search := "", hash := "" } =
          u.protocol ++ "//" ++ u.host ++ ("/" ++ joinStrings "/" segs2) :=
      toStr_flat hbare rfl rfl
    rw [hts]
    exact parse_rebuild
      { u with pathname := "/" ++ joinStrings "/" segs2, search := "", hash := "" }
      hproto hhost hPW
  · exact pathSegs_join segs2 hne2 (fun x hx c hc => (hchars x hx c hc).2)

lemma upgradeP2_reparse {src0 : String} {u : Url} (h : parseURL src0 = some u)
    (hmux : lowerStr u.host = "stream.mux.com")
    (hseg : pathSegs u.pathname ≠ []) :
    parseURL (P2.upgradeMuxLowToHigh src0) =
      some { protocol := u.protocol, host := u.host,
             pathname := "/" ++ joinStrings "/"
               (match (pathSegs u.pathname).get? 1 with
                | some s1 =>
                  if strEndsWith (lowerStr s1) "low.mp4" then
                    (pathSegs u.pathname).set 1 "high.mp4"
                  else pathSegs u.pathname
                | none => pathSegs u.pathname),
             search := "", hash := "", bare := false } ∧
    pathSegs ("/" ++ joinStrings "/"
        (match (pathSegs u.pathname).get? 1 with
         | some s1 =>
           if strEndsWith (lowerStr s1) "low.mp4" then
             (pathSegs u.pathname).set 1 "high.mp4"
           else pathSegs u.pathname
         | none => pathSegs u.pathname)) =
      (match (pathSegs u.pathname).get? 1 with
       | some s1 =>
         if strEndsWith (lowerStr s1) "low.mp4" then
           (pathSegs u.pathname).set 1 "high.mp4"
         else pathSegs u.pathname
       | none => pathSegs u.pathname) := by
  have hbare : u.bare = false := by
    cases hbv : u.bare with
    | false => rfl
    | true =>
      have hh0 : u.host = "" := parse_bare_host h hbv
      rw [hh0] at hmux
      exact absurd hmux (by decide)
  obtain ⟨hproto, hhost, hpath⟩ := parse_parts h hbare
  have hElems : ∀ x ∈ (match (pathSegs u.pathname).get? 1 with
      | some s1 =>
        if strEndsWith (lowerStr s1) "low.mp4" then
          (pathSegs u.pathname).set 1 "high.mp4"
        else pathSegs u.pathname
      | none => pathSegs u.pathname),
      x ∈ pathSegs u.pathname ∨ x = "high.mp4" := by
    intro x hx
    split at hx
    · split at hx
      · rcases List.mem_or_eq_of_mem_set hx with hmem | rfl
        · exact Or.inl hmem
        · exact Or.inr rfl
      · exact Or.inl hx
    · exact Or.inl hx
  have hne2 : ∀ x ∈ (match (pathSegs u.pathname).get? 1 with
      | some s1 =>
        if strEndsWith (lowerStr s1) "low.mp4" then
          (pathSegs u.pathname).set 1 "high.mp4"
        else pathSegs u.pathname
      | none => pathSegs u.pathname), x ≠ "" := by
    intro x hx
    rcases hElems x hx with hm | rfl
    · exact pathSegs_ne_empty hm
    · decide
  have hchars : ∀ x ∈ (match (pathSegs u.pathname).get? 1 with
      | some s1 =>
        if strEndsWith (lowerStr s1) "low.mp4" then
          (pathSegs u.pathname).set 1 "high.mp4"
        else pathSegs u.pathname
      | none => pathSegs u.pathname),
      ∀ c ∈ x.data, pathStop c = false ∧ c ≠ '/' := by
    intro x hx c hc
    rcases hElems x hx with hm | rfl
    · obtain ⟨hcp, hcs⟩ := pathSegs_chars hm c hc
      exact ⟨hpath.2 c hcp, hcs⟩
    · exact ⟨(by revert c hc; decide), (by revert c hc; decide)⟩
  have hrep := reparse_of_segs hbare hproto hhost _ hne2 hchars
  rw [upgradeP2_segs h hmux hseg]
  exact hrep

end ParseLemmas

/-! ## Invariants of the part_002 merge loop for one playback id -/

section P2Inv

lemma segs2_get1 {segs : List String} {s1 : String} (hget : segs.get? 1 = some s1)
    (hs1 : s1 = "low.mp4" ∨ s1 = "high.mp4") :
    (match segs.get? 1 with
     | some t1 =>
       if strEndsWith (lowerStr t1) "low.mp4" then segs.set 1 "high.mp4" else segs
     | none => segs).get? 1 = some "high.mp4" := by
  rw [hget]
  match segs, hget with
  | a :: b :: t, hget =>
    have hb : b = s1 := by simpa using hget
    subst hb
    rcases hs1 with rfl | rfl <;> rfl

lemma segs2_head {segs : List String} :
    (match segs.get? 1 with
     | some t1 =>
       if strEndsWith (lowerStr t1) "low.mp4" then segs.set 1 "high.mp4" else segs
     | none => segs).head? = segs.head? := by
  cases segs with
  | nil => rfl
  | cons a t =>
    cases t with
    | nil => rfl
    | cons b r =>
      show (if strEndsWith (lowerStr b) "low.mp4"
            then (a :: b :: r).set 1 "high.mp4" else a :: b :: r).head? = _
      split <;> rfl

lemma P2.tileKey_mux {ty src p : String} (hty : ty = "video")
    (hpid : P2.muxPlaybackIdFromStream src = some p) :
    P2.tileKey ty src = "video:mux:" ++ p := by
  unfold P2.tileKey
  rw [if_pos hty, hpid]

lemma P2.rankStep_cases (key : String) (cand : P2.Item)
    (m : List (String × P2.Item)) :
    P2.rankStep key cand m = mapSet m key cand ∨
    (P2.rankStep key cand m = m ∧ (m.lookup key).isSome) := by
  unfold P2.rankStep
  cases hl : m.lookup key with
  | none => exact Or.inl rfl
  | some prev =>
    dsimp only
    split
    · exact Or.inl rfl
    · exact Or.inr ⟨rfl, rfl⟩

lemma P2.mergeTile_inv {p : String} {st : P2.State} {raw : P2.RawTile}
    (hInv : P2.muxInv p st.itemsByKey)
    (hfreak : ∀ src0, P2.normaliseURL raw.src P2.COSMOS_URL = some src0 →
      P2.isExcludedUrl src0 = false → P2.muxPlaybackIdFromThumb src0 = none →
      P2.tileKey (P2.tileTy raw (P2.upgradeMuxLowToHigh src0))
          (P2.upgradeMuxLowToHigh src0) = "video:mux:" ++ p →
      P2.tileTy raw (P2.upgradeMuxLowToHigh src0) = "video" ∧
        P2.muxPlaybackIdFromStream (P2.upgradeMuxLowToHigh src0) = some p ∧
        muxTier (P2.upgradeMuxLowToHigh src0) = some "high.mp4") :
    P2.muxInv p (P2.mergeTile st raw).itemsByKey := by
  obtain ⟨hnd, hdir1, hdir2⟩ := hInv
  cases h1 : P2.normaliseURL raw.src P2.COSMOS_URL with
  | none => simpa [P2.mergeTile, h1] using ⟨hnd, hdir1, hdir2⟩
  | some src0 =>
    by_cases h2 : P2.isExcludedUrl src0
    · simpa [P2.mergeTile, h1, h2] using ⟨hnd, hdir1, hdir2⟩
    cases h3 : P2.muxPlaybackIdFromThumb src0 with
    | some pid => simpa [P2.mergeTile, h1, h2, h3] using ⟨hnd, hdir1, hdir2⟩
    | none =>
      have h2f : P2.isExcludedUrl src0 = false := by
        revert h2; cases P2.isExcludedUrl src0 <;> simp
      have hstep : (P2.mergeTile st raw).itemsByKey =
          P2.rankStep (P2.tileKey (P2.tileTy raw (P2.upgradeMuxLowToHigh src0))
              (P2.upgradeMuxLowToHigh src0))
            (P2.tileCand raw (P2.tileTy raw (P2.upgradeMuxLowToHigh src0))
              (P2.upgradeMuxLowToHigh src0)) st.itemsByKey := by
        simp [P2.mergeTile, h1, h2, h3]
      rw [hstep]
      rcases P2.rankStep_cases (P2.tileKey (P2.tileTy raw (P2.upgradeMuxLowToHigh src0))
          (P2.upgradeMuxLowToHigh src0))
          (P2.tileCand raw (P2.tileTy raw (P2.upgradeMuxLowToHigh src0))
            (P2.upgradeMuxLowToHigh src0)) st.itemsByKey with hrs | ⟨hrs, _⟩
      · rw [hrs]
        refine ⟨mapSet_keys_nodup _ _ _ hnd, ?_, ?_⟩
        · intro kv hkv hkvp
          rcases mem_mapSet_cases hkv with rfl | ⟨hm, _⟩
          · exact P2.tileKey_mux hkvp.1 hkvp.2
          · exact hdir1 kv hm hkvp
        · intro kv hkv hkvk
          rcases mem_mapSet_cases hkv with rfl | ⟨hm, _⟩
          · exact hfreak src0 h1 h2f h3 hkvk
          · exact hdir2 kv hm hkvk
      · rw [hrs]
        exact ⟨hnd, hdir1, hdir2⟩

lemma P2.mergeTile_hasKey_mono {st : P2.State} {raw : P2.RawTile} {k : String}
    (h : (st.itemsByKey.lookup k).isSome) :
    (((P2.mergeTile st raw).itemsByKey).lookup k).isSome := by
  cases h1 : P2.normaliseURL raw.src P2.COSMOS_URL with
  | none => simpa [P2.mergeTile, h1] using h
  | some src0 =>
    by_cases h2 : P2.isExcludedUrl src0
    · simpa [P2.mergeTile, h1, h2] using h
    cases h3 : P2.muxPlaybackIdFromThumb src0 with
    | some pid => simpa [P2.mergeTile, h1, h2, h3] using h
    | none =>
      have hstep : (P2.mergeTile st raw).itemsByKey =
          P2.rankStep (P2.tileKey (P2.tileTy raw (P2.upgradeMuxLowToHigh src0))
              (P2.upgradeMuxLowToHigh src0))
            (P2.tileCand raw (P2.tileTy raw (P2.upgradeMuxLowToHigh src0))
              (P2.upgradeMuxLowToHigh src0)) st.itemsByKey := by
        simp [P2.mergeTile, h1, h2, h3]
      rw [hstep]
      rcases P2.rankStep_cases (P2.tileKey (P2.tileTy raw (P2.upgradeMuxLowToHigh src0))
          (P2.upgradeMuxLowToHigh src0))
          (P2.tileCand raw (P2.tileTy raw (P2.upgradeMuxLowToHigh src0))
            (P2.upgradeMuxLowToHigh src0)) st.itemsByKey with hrs | ⟨hrs, _⟩
      · rw [hrs]
        by_cases hk : k = P2.tileKey (P2.tileTy raw (P2.upgradeMuxLowToHigh src0))
            (P2.upgradeMuxLowToHigh src0)
        · subst hk
          rw [lookup_mapSet]
          rfl
        · rw [lookup_mapSet_ne _ _ _ _ hk]
          exact h
      · rw [hrs]
        exact h

lemma P2.mergeTile_hasKey {p : String} {st : P2.State} {raw : P2.RawTile}
    (hacc : P2.acceptedMux p raw) :
    (((P2.mergeTile st raw).itemsByKey).lookup ("video:mux:" ++ p)).isSome := by
  obtain ⟨src0, h1, h2, h3, hty, hpid⟩ := hacc
  have hstep : (P2.mergeTile st raw).itemsByKey =
      P2.rankStep (P2.tileKey (P2.tileTy raw (P2.upgradeMuxLowToHigh src0))
          (P2.upgradeMuxLowToHigh src0))
        (P2.tileCand raw (P2.tileTy raw (P2.upgradeMuxLowToHigh src0))
          (P2.upgradeMuxLowToHigh src0)) st.itemsByKey := by
    simp [P2.mergeTile, h1, h2, h3]
  rw [hstep]
  have hk : P2.tileKey (P2.tileTy raw (P2.upgradeMuxLowToHigh src0))
      (P2.upgradeMuxLowToHigh src0) = "video:mux:" ++ p := by
    rw [hty]
    exact P2.tileKey_mux rfl hpid
  rcases P2.rankStep_cases (P2.tileKey (P2.tileTy raw (P2.upgradeMuxLowToHigh src0))
      (P2.upgradeMuxLowToHigh src0))
      (P2.tileCand raw (P2.tileTy raw (P2.upgradeMuxLowToHigh src0))
        (P2.upgradeMuxLowToHigh src0)) st.itemsByKey with hrs | ⟨hrs, hsome⟩
  · rw [hrs, ← hk, lookup_mapSet]
    rfl
  · rw [hrs, ← hk]
    exact hsome

end P2Inv

/-! ## Batch-level consequences of the part_002 merge loop -/

section BatchLemmas

lemma P2.mergeTile_keys_nodup {st : P2.State} {raw : P2.RawTile}
    (h : ((st.itemsByKey).map Prod.fst).Nodup) :
    (((P2.mergeTile st raw).itemsByKey).map Prod.fst).Nodup := by
  cases h1 : P2.normaliseURL raw.src P2.COSMOS_URL with
  | none => simpa [P2.mergeTile, h1] using h
  | some src0 =>
    by_cases h2 : P2.isExcludedUrl src0
    · simpa [P2.mergeTile, h1, h2] using h
    cases h3 : P2.muxPlaybackIdFromThumb src0 with
    | some pid => simpa [P2.mergeTile, h1, h2, h3] using h
    | none =>
      have hstep : (P2.mergeTile st raw).itemsByKey =
          P2.rankStep (P2.tileKey (P2.tileTy raw (P2.upgradeMuxLowToHigh src0))
              (P2.upgradeMuxLowToHigh src0))
            (P2.tileCand raw (P2.tileTy raw (P2.upgradeMuxLowToHigh src0))
              (P2.upgradeMuxLowToHigh src0)) st.itemsByKey := by
        simp [P2.mergeTile, h1, h2, h3]
      rw [hstep]
      rcases P2.rankStep_cases (P2.tileKey (P2.tileTy raw (P2.upgradeMuxLowToHigh src0))
          (P2.upgradeMuxLowToHigh src0))
          (P2.tileCand raw (P2.tileTy raw (P2.upgradeMuxLowToHigh src0))
            (P2.upgradeMuxLowToHigh src0)) st.itemsByKey with hrs | ⟨hrs, _⟩
      · rw [hrs]
        exact mapSet_keys_nodup _ _ _ h
      · rw [hrs]
        exact h

lemma P2.mergeBatch_keys_nodup : ∀ (batch : List P2.RawTile) (st : P2.State),
    ((st.itemsByKey).map Prod.fst).Nodup →
    (((P2.mergeBatch st batch).itemsByKey).map Prod.fst).Nodup := by
  intro batch
  induction batch with
  | nil => intro st h; exact h
  | cons r t ih =>
    intro st h
    exact ih (P2.mergeTile st r) (P2.mergeTile_keys_nodup h)

lemma P2.mergeBatch_inv {p : String} : ∀ (batch : List P2.RawTile) (st : P2.State),
    P2.muxInv p st.itemsByKey → (∀ raw ∈ batch, P2.muxAttrib p raw) →
    P2.muxInv p (P2.mergeBatch st batch).itemsByKey := by
  intro batch
  induction batch with
  | nil => intro st hInv _; exact hInv
  | cons r t ih =>
    intro st hInv hco
    exact ih (P2.mergeTile st r)
      (P2.mergeTile_inv hInv (hco r (List.mem_cons_self r t)))
      (fun raw hraw => hco raw (List.mem_cons_of_mem r hraw))

lemma P2.mergeBatch_hasKey_mono {k : String} : ∀ (batch : List P2.RawTile) (st : P2.State),
    (st.itemsByKey.lookup k).isSome →
    (((P2.mergeBatch st batch).itemsByKey).lookup k).isSome := by
  intro batch
  induction batch with
  | nil => intro st h; exact h
  | cons r t ih =>
    intro st h
    exact ih (P2.mergeTile st r) (P2.mergeTile_hasKey_mono h)

lemma P2.mergeBatch_hasKey {p : String} : ∀ (batch : List P2.RawTile) (st : P2.State),
    (∃ raw ∈ batch, P2.acceptedMux p raw) →
    (((P2.mergeBatch st batch).itemsByKey).lookup ("video:mux:" ++ p)).isSome := by
  intro batch
  induction batch with
  | nil =>
    intro st h
    obtain ⟨raw, hraw, _⟩ := h
    exact absurd hraw (List.not_mem_nil raw)
  | cons r t ih =>
    intro st h
    obtain ⟨raw, hraw, hacc⟩ := h
    rcases List.mem_cons.mp hraw with rfl | hmem
    · exact P2.mergeBatch_hasKey_mono t (P2.mergeTile st raw) (P2.mergeTile_hasKey hacc)
    · exact ih (P2.mergeTile st r) ⟨raw, hmem, hacc⟩

end BatchLemmas

/-! ## Structure of the scrape.mjs build loops -/

section FoldLemmas

lemma loop1Step_cases (ham : Bool) (st : List String × List Scrape.OutItem)
    (it : Scrape.PosItem) :
    Scrape.loop1Step ham st it = st ∨
    (Scrape.survives1 ham it = true ∧
     Scrape.keyOfOut (Scrape.emitOut1 it) ∉ st.1 ∧
     Scrape.loop1Step ham st it =
       (st.1 ++ [Scrape.keyOfOut (Scrape.emitOut1 it)],
        st.2 ++ [Scrape.emitOut1 it])) := by
  simp only [Scrape.loop1Step]
  by_cases h1 : Scrape.isMuxThumbnail it.src = true
  · rw [if_pos h1]; exact Or.inl rfl
  rw [if_neg h1]
  by_cases h2 : m3u8Test it.src = true
  · rw [if_pos h2]; exact Or.inl rfl
  rw [if_neg h2]
  by_cases h3 : (match parseURL it.src with
                 | some u => it.type = "image" && !Scrape.isCosmosImageHost u.host
                 | none => false) = true
  · rw [if_pos h3]; exact Or.inl rfl
  rw [if_neg h3]
  by_cases h4 : (it.type = "video" && ham
      && Scrape.isCosmosHostedMp4 (Scrape.upSrc1 it)) = true
  · rw [if_pos h4]; exact Or.inl rfl
  rw [if_neg h4]
  cases h5 : Scrape.normaliseURL (Scrape.upSrc1 it) Scrape.COSMOS_URL with
  | none => exact Or.inl rfl
  | some norm =>
    dsimp only
    have hkey : Scrape.keyOfOut (Scrape.emitOut1 it) = Scrape.keyFor it.type norm := by
      simp [Scrape.keyOfOut, Scrape.emitOut1, h5]
    by_cases h6 : Scrape.keyFor it.type norm ∈ st.1
    · rw [if_pos h6]; exact Or.inl rfl
    · rw [if_neg h6]
      right
      rw [Bool.not_eq_true] at h1 h2 h3 h4
      refine ⟨?_, ?_, ?_⟩
      · simp [Scrape.survives1, h1, h2, h3, h4, h5]
      · rw [hkey]; exact h6
      · rw [hkey]
        have hrec : Scrape.emitOut1 it =
            { type := it.type, src := norm,
              width := Scrape.clampDim it.width 0,
              height := Scrape.clampDim it.height 0,
              poster := Scrape.posterOut it } := by
          simp [Scrape.emitOut1, h5]
        rw [hrec]

lemma loop2Step_cases (ham : Bool) (st : List String × List Scrape.OutItem)
    (v : Scrape.FoundItem) :
    Scrape.loop2Step ham st v = st ∨
    (Scrape.survives2 ham v = true ∧
     Scrape.keyOfOut (Scrape.emitOut2 v) ∉ st.1 ∧
     Scrape.loop2Step ham st v =
       (st.1 ++ [Scrape.keyOfOut (Scrape.emitOut2 v)],
        st.2 ++ [Scrape.emitOut2 v])) := by
  simp only [Scrape.loop2Step]
  by_cases h1 : v.src = ""
  · rw [if_pos h1]; exact Or.inl rfl
  rw [if_neg h1]
  by_cases h2 : (Scrape.isExcluded v.src || Scrape.isMuxThumbnail v.src) = true
  · rw [if_pos h2]; exact Or.inl rfl
  rw [if_neg h2]
  by_cases h3 : m3u8Test v.src = true
  · rw [if_pos h3]; exact Or.inl rfl
  rw [if_neg h3]
  by_cases h4 : (!Scrape.allowByHostAndExt v.src (Scrape.netHint v.type v.src)) = true
  · rw [if_pos h4]; exact Or.inl rfl
  rw [if_neg h4]
  by_cases h5 : (Scrape.netTy v = "image" &&
      (match parseURL v.src with
       | some u => !Scrape.isCosmosImageHost u.host
       | none => false)) = true
  · rw [if_pos h5]; exact Or.inl rfl
  rw [if_neg h5]
  by_cases h6 : (Scrape.netTy v = "video" && ham
      && Scrape.isCosmosHostedMp4 (Scrape.netFinalSrc v)) = true
  · rw [if_pos h6]; exact Or.inl rfl
  rw [if_neg h6]
  by_cases h7 : m3u8Test (Scrape.netFinalSrc v) = true
  · rw [if_pos h7]; exact Or.inl rfl
  rw [if_neg h7]
  cases h8 : Scrape.normaliseURL (Scrape.netFinalSrc v) Scrape.COSMOS_URL with
  | none => exact Or.inl rfl
  | some norm =>
    dsimp only
    have hkey : Scrape.keyOfOut (Scrape.emitOut2 v) =
        Scrape.keyFor (Scrape.netTy v) norm := by
      simp [Scrape.keyOfOut, Scrape.emitOut2, h8]
    by_cases h9 : Scrape.keyFor (Scrape.netTy v) norm ∈ st.1
    · rw [if_pos h9]; exact Or.inl rfl
    · rw [if_neg h9]
      right
      rw [Bool.not_eq_true] at h2 h3 h4 h5 h6 h7
      refine ⟨?_, ?_, ?_⟩
      · have h1f : ¬(v.src = "") := h1
        have h4f : Scrape.allowByHostAndExt v.src (Scrape.netHint v.type v.src) = true := by
          revert h4
          cases Scrape.allowByHostAndExt v.src (Scrape.netHint v.type v.src) <;> simp
        simp [Scrape.survives2, h2, h3, h5, h6, h7, h8, h1f, h4f]
      · rw [hkey]; exact h9
      · rw [hkey]
        have hrec : Scrape.emitOut2 v =
            { type := Scrape.netTy v, src := norm,
              width := Scrape.clampDim v.width 0,
              height := Scrape.clampDim v.height 0,
              poster := none } := by
          simp [Scrape.emitOut2, h8]
        rw [hrec]

lemma fold_emit {β γ : Type} (step : List String × List γ → β → List String × List γ)
    (emit : β → γ) (keyOf : γ → String) (ok : β → Bool)
    (hstep : ∀ st b, step st b = st ∨
      (ok b = true ∧ keyOf (emit b) ∉ st.1 ∧
       step st b = (st.1 ++ [keyOf (emit b)], st.2 ++ [emit b]))) :
    ∀ (l : List β) (st : List String × List γ),
    ∃ sel : List β, sel.Sublist l ∧ (∀ b ∈ sel, ok b = true) ∧
      (l.foldl step st).1 = st.1 ++ (sel.map emit).map keyOf ∧
      (l.foldl step st).2 = st.2 ++ sel.map emit ∧
      (∀ b ∈ sel, keyOf (emit b) ∉ st.1) ∧
      (st.1.Nodup → (l.foldl step st).1.Nodup) := by
  intro l
  induction l with
  | nil =>
    intro st
    exact ⟨[], List.Sublist.refl [], by simp, by simp, by simp, by simp, fun h => h⟩
  | cons b t ih =>
    intro st
    rcases hstep st b with hkeep | ⟨hok, hnot, hemit⟩
    · rw [List.foldl_cons, hkeep]
      obtain ⟨sel, hsub, hsok, h1, h2, hn, hnd⟩ := ih st
      exact ⟨sel, List.sublist_cons_of_sublist b hsub, hsok, h1, h2, hn, hnd⟩
    · rw [List.foldl_cons, hemit]
      obtain ⟨sel, hsub, hsok, h1, h2, hn, hnd⟩ :=
        ih (st.1 ++ [keyOf (emit b)], st.2 ++ [emit b])
      refine ⟨b :: sel, List.Sublist.cons₂ b hsub, ?_, ?_, ?_, ?_, ?_⟩
      · intro x hx
        rcases List.mem_cons.mp hx with rfl | hx2
        · exact hok
        · exact hsok x hx2
      · rw [h1]
        simp
      · rw [h2]
        simp
      · intro x hx
        rcases List.mem_cons.mp hx with rfl | hx2
        · exact hnot
        · intro hmem
          exact hn x hx2 (by simp [hmem])
      · intro hnodup
        apply hnd
        rw [List.nodup_append]
        refine ⟨hnodup, List.nodup_singleton _, ?_⟩
        intro a ha hb
        have : a = keyOf (emit b) := by simpa using hb
        subst this
        exact hnot ha

lemma posLe_trans (a b c : Scrape.PosItem) (hab : Scrape.posLe a b = true)
    (hbc : Scrape.posLe b c = true) : Scrape.posLe a c = true := by
  simp only [Scrape.posLe, Bool.or_eq_true, Bool.and_eq_true, decide_eq_true_eq] at *
  omega

lemma posLe_total (a b : Scrape.PosItem) :
    (Scrape.posLe a b || Scrape.posLe b a) = true := by
  simp only [Scrape.posLe, Bool.or_eq_true, Bool.and_eq_true, decide_eq_true_eq]
  omega

end FoldLemmas

/-! ## Normalisation transfer, thumbnails, dimension merge, loop exit -/

section MoreLemmas

lemma cosmosMp4_transfer {s n : String} {u : Url} (hu : parseURL s = some u)
    (hb : u.bare = false) (h : Scrape.normaliseURL s Scrape.COSMOS_URL = some n) :
    Scrape.isCosmosHostedMp4 n = Scrape.isCosmosHostedMp4 s := by
  have hrel : parseURLRel s Scrape.COSMOS_URL = some u := by
    unfold parseURLRel
    rw [hu]
  unfold Scrape.normaliseURL at h
  rw [hrel] at h
  dsimp only at h
  have hn : n = u.protocol ++ "//" ++ u.host ++ u.pathname := (Option.some_inj.mp h).symm
  obtain ⟨hp, hh, hpw⟩ := parse_parts hu hb
  have hreb := parse_rebuild u hp hh hpw
  unfold Scrape.isCosmosHostedMp4
  rw [hu, hn, hreb]

lemma upSrc1_id (it : Scrape.PosItem) : Scrape.upSrc1 it = it.src := by
  unfold Scrape.upSrc1 Scrape.upgradeMuxLowToHigh
  split <;> rfl

lemma netFinalSrc_id (v : Scrape.FoundItem) : Scrape.netFinalSrc v = v.src := by
  unfold Scrape.netFinalSrc Scrape.upgradeMuxLowToHigh
  split <;> rfl

lemma P2.mergeTile_thumb_items {st : P2.State} {t : P2.RawTile}
    (h : P2.posterOnly t) : (P2.mergeTile st t).itemsByKey = st.itemsByKey := by
  cases h1 : P2.normaliseURL t.src P2.COSMOS_URL with
  | none => simp [P2.mergeTile, h1]
  | some src0 =>
    by_cases h2 : P2.isExcludedUrl src0
    · simp [P2.mergeTile, h1, h2]
    cases h3 : P2.muxPlaybackIdFromThumb src0 with
    | some pid => simp [P2.mergeTile, h1, h2, h3]
    | none =>
      have h2f : P2.isExcludedUrl src0 = false := by
        revert h2; cases P2.isExcludedUrl src0 <;> simp
      have hs := h src0 h1 h2f
      rw [h3] at hs
      exact absurd hs (by simp)

lemma P2.mergeTile_items_congr {st st' : P2.State} (v : P2.RawTile)
    (h : st'.itemsByKey = st.itemsByKey) :
    (P2.mergeTile st' v).itemsByKey = (P2.mergeTile st v).itemsByKey := by
  unfold P2.mergeTile
  cases h1 : P2.normaliseURL v.src P2.COSMOS_URL with
  | none => exact h
  | some src0 =>
    dsimp only
    by_cases h2 : P2.isExcludedUrl src0 = true
    · rw [if_pos h2, if_pos h2]
      exact h
    · rw [if_neg h2, if_neg h2]
      cases h3 : P2.muxPlaybackIdFromThumb src0 with
      | some pid => exact h
      | none =>
        dsimp only
        rw [h]

lemma clampDim_nonneg (n : Int) : 0 ≤ Scrape.clampDim n 0 := by
  unfold Scrape.clampDim
  split
  · omega
  · rw [Int.min_def, Int.max_def]
    split_ifs <;> omega

lemma dimMerge (ew nw : Int) (h1 : 0 ≤ ew) (h2 : 0 ≤ nw) :
    (if (ew = 0 ∨ ew < nw) ∧ nw ≠ 0 then nw else ew) = max ew nw := by
  rw [Int.max_def]
  split_ifs <;> omega

lemma P2.loopGo_early (sc : Nat) :
    ∀ (l : List P2.StepObs) (lastH : Int) (stable lastCount noNew i steps a b : Nat),
    P2.loopGo sc l lastH stable lastCount noNew i = (steps, true, a, b) →
    sc ≤ a ∧ sc ≤ b := by
  intro l
  induction l with
  | nil =>
    intro lastH stable lastCount noNew i steps a b h
    simp [P2.loopGo] at h
  | cons s rest ih =>
    intro lastH stable lastCount noNew i steps a b h
    simp only [P2.loopGo] at h
    generalize hst : (if s.height = lastH then stable + 1 else 0) = stable' at h
    generalize hnn : (if s.count = lastCount then noNew + 1 else 0) = noNew' at h
    by_cases hcond : sc ≤ stable' ∧ sc ≤ noNew'
    · rw [if_pos hcond] at h
      simp only [Prod.mk.injEq] at h
      obtain ⟨-, -, ha, hb⟩ := h
      rw [← ha, ← hb]
      exact hcond
    · rw [if_neg hcond] at h
      exact ih _ _ _ _ _ _ _ _ h

lemma set1_head (l : List String) (a : String) : (l.set 1 a).head? = l.head? := by
  cases l with
  | nil => rfl
  | cons x t =>
    cases t with
    | nil => rfl
    | cons y r => rfl

lemma upgradeP1_eq {url : String} {u : Url} (h : parseURL url = some u)
    (hmux : lowerStr u.host = "stream.mux.com")
    (hseg : 2 ≤ (pathSegs u.pathname).length) :
    P1.upgradeMux url = Url.toStr { u with
      pathname := "/" ++ joinStrings "/" ((pathSegs u.pathname).set 1 "high.mp4"),
      search := "", hash := "" } := by
  unfold P1.upgradeMux
  rw [h]
  dsimp only
  rw [if_neg (by rw [hmux]; exact fun hc => hc rfl)]
  rw [if_pos hseg]

lemma upgradeP1_reparse {url : String} {u : Url} (h : parseURL url = some u)
    (hmux : lowerStr u.host = "stream.mux.com")
    (hseg : 2 ≤ (pathSegs u.pathname).length) :
    parseURL (P1.upgradeMux url) =
      some { protocol := u.protocol, host := u.host,
             pathname := "/" ++ joinStrings "/" ((pathSegs u.pathname).set 1 "high.mp4"),
             search := "", hash := "", bare := false } ∧
    pathSegs ("/" ++ joinStrings "/" ((pathSegs u.pathname).set 1 "high.mp4")) =
      (pathSegs u.pathname).set 1 "high.mp4" := by
  have hbare : u.bare = false := by
    cases hbv : u.bare with
    | false => rfl
    | true =>
      have hh0 : u.host = "" := parse_bare_host h hbv
      rw [hh0] at hmux
      exact absurd hmux (by decide)
  obtain ⟨hproto, hhost, hpath⟩ := parse_parts h hbare
  have hne2 : ∀ x ∈ (pathSegs u.pathname).set 1 "high.mp4", x ≠ "" := by
    intro x hx
    rcases List.mem_or_eq_of_mem_set hx with hm | rfl
    · exact pathSegs_ne_empty hm
    · decide
  have hchars : ∀ x ∈ (pathSegs u.pathname).set 1 "high.mp4",
      ∀ c ∈ x.data, pathStop c = false ∧ c ≠ '/' := by
    intro x hx c hc
    rcases List.mem_or_eq_of_mem_set hx with hm | rfl
    · obtain ⟨hcp, hcs⟩ := pathSegs_chars hm c hc
      exact ⟨hpath.2 c hcp, hcs⟩
    · exact ⟨(by revert c hc; decide), (by revert c hc; decide)⟩
  have hrep := reparse_of_segs hbare hproto hhost _ hne2 hchars
  rw [upgradeP1_eq h hmux hseg]
  exact hrep

end MoreLemmas

section SurvivorFacts

lemma survives1_facts {ham : Bool} {it : Scrape.PosItem}
    (h : Scrape.survives1 ham it = true) :
    (decide (it.type = "video") && ham
      && Scrape.isCosmosHostedMp4 (Scrape.upSrc1 it)) = false ∧
    (Scrape.normaliseURL (Scrape.upSrc1 it) Scrape.COSMOS_URL).isSome = true := by
  simp only [Scrape.survives1, Bool.and_eq_true, Bool.not_eq_true'] at h
  exact ⟨h.1.2, h.2⟩

lemma survives2_facts {ham : Bool} {v : Scrape.FoundItem}
    (h : Scrape.survives2 ham v = true) :
    (decide (Scrape.netTy v = "video") && ham
      && Scrape.isCosmosHostedMp4 (Scrape.netFinalSrc v)) = false ∧
    (Scrape.normaliseURL (Scrape.netFinalSrc v) Scrape.COSMOS_URL).isSome = true := by
  simp only [Scrape.survives2, Bool.and_eq_true, Bool.not_eq_true'] at h
  exact ⟨h.1.1.2, h.2⟩

end SurvivorFacts

/-! ## Claim theorems -/

/-- Claim C1: in every run, the final emitted list contains no two assets
with the same identity key — mux playback id for streaming-host videos,
otherwise type plus canonical URL (`scrape.mjs` seen-set dedup), and
likewise the `part_002` collection never holds two entries under one
key. -/
theorem c1_identity_keys_unique (positional : List Scrape.PosItem)
    (found : List Scrape.FoundItem) (batch : List P2.RawTile) :
    ((Scrape.finalBuild positional found).map Scrape.keyOfOut).Nodup ∧
    (((P2.mergeBatch P2.initState batch).itemsByKey).map Prod.fst).Nodup := by
  constructor
  · obtain ⟨sel, -, -, h11, h12, -, hnd1⟩ :=
      fold_emit (Scrape.loop1Step (Scrape.hasAnyMux positional)) Scrape.emitOut1
        Scrape.keyOfOut (Scrape.survives1 (Scrape.hasAnyMux positional))
        (loop1Step_cases (Scrape.hasAnyMux positional))
        (Scrape.sortPositional positional) ([], [])
    obtain ⟨ker, -, -, h21, h22, -, hnd2⟩ :=
      fold_emit (Scrape.loop2Step (Scrape.hasAnyMux positional)) Scrape.emitOut2
        Scrape.keyOfOut (Scrape.survives2 (Scrape.hasAnyMux positional))
        (loop2Step_cases (Scrape.hasAnyMux positional))
        found
        ((Scrape.sortPositional positional).foldl
          (Scrape.loop1Step (Scrape.hasAnyMux positional)) ([], []))
    have hfb : Scrape.finalBuild positional found =
        (found.foldl (Scrape.loop2Step (Scrape.hasAnyMux positional))
          ((Scrape.sortPositional positional).foldl
            (Scrape.loop1Step (Scrape.hasAnyMux positional)) ([], []))).2 := rfl
    have hkeys : (Scrape.finalBuild positional found).map Scrape.keyOfOut =
        (found.foldl (Scrape.loop2Step (Scrape.hasAnyMux positional))
          ((Scrape.sortPositional positional).foldl
            (Scrape.loop1Step (Scrape.hasAnyMux positional)) ([], []))).1 := by
      rw [hfb, h22, h21, h12, h11]
      simp [List.map_append]
    rw [hkeys]
    exact hnd2 (hnd1 List.nodup_nil)
  · apply P2.mergeBatch_keys_nodup
    simp [P2.initState]

/-- Claim C5: the final list is the positioned captures in ascending
`(top, left)` order (a filtered subsequence of the sorted positional
array), followed by the network-channel discoveries in first-discovered
order, none of which reuses an identity key already emitted from the
positioned pass. -/
theorem c5_final_order (positional : List Scrape.PosItem)
    (found : List Scrape.FoundItem) :
    List.Pairwise (fun a b => Scrape.posLe a b = true)
      (Scrape.sortPositional positional) ∧
    ∃ (sel : List Scrape.PosItem) (ker : List Scrape.FoundItem),
      sel.Sublist (Scrape.sortPositional positional) ∧
      ker.Sublist found ∧
      Scrape.finalBuild positional found =
        sel.map Scrape.emitOut1 ++ ker.map Scrape.emitOut2 ∧
      (∀ v ∈ ker, Scrape.keyOfOut (Scrape.emitOut2 v) ∉
        (sel.map Scrape.emitOut1).map Scrape.keyOfOut) := by
  constructor
  · exact stableSort_sorted posLe_trans posLe_total positional
  · obtain ⟨sel, hsel, -, h11, h12, -, -⟩ :=
      fold_emit (Scrape.loop1Step (Scrape.hasAnyMux positional)) Scrape.emitOut1
        Scrape.keyOfOut (Scrape.survives1 (Scrape.hasAnyMux positional))
        (loop1Step_cases (Scrape.hasAnyMux positional))
        (Scrape.sortPositional positional) ([], [])
    obtain ⟨ker, hker, -, -, h22, hknot, -⟩ :=
      fold_emit (Scrape.loop2Step (Scrape.hasAnyMux positional)) Scrape.emitOut2
        Scrape.keyOfOut (Scrape.survives2 (Scrape.hasAnyMux positional))
        (loop2Step_cases (Scrape.hasAnyMux positional))
        found
        ((Scrape.sortPositional positional).foldl
          (Scrape.loop1Step (Scrape.hasAnyMux positional)) ([], []))
    refine ⟨sel, ker, hsel, hker, ?_, ?_⟩
    · have hfb : Scrape.finalBuild positional found =
          (found.foldl (Scrape.loop2Step (Scrape.hasAnyMux positional))
            ((Scrape.sortPositional positional).foldl
              (Scrape.loop1Step (Scrape.hasAnyMux positional)) ([], []))).2 := rfl
      rw [hfb, h22, h12]
      simp
    · intro v hv
      have hnot := hknot v hv
      rw [h11] at hnot
      simpa using hnot

/-- Claim C7 counterexample: `hasAnyMux` only inspects positional (DOM)
captures, so a mux video known from the network channel alone does not
suppress a cosmos-hosted mp4 — both end up in the final output. -/
theorem c7_counterexample :
    Scrape.finalBuild [Cx7cos] [Cx7found] =
      [{ type := "video", src := "https://cdn.cosmos.so/clip.mp4",
         width := 0, height := 0, poster := none },
       { type := "video", src := "https://stream.mux.com/abc123/low.mp4",
         width := 0, height := 0, poster := none }] ∧
    Scrape.isCosmosHostedMp4 "https://cdn.cosmos.so/clip.mp4" = true ∧
    Scrape.muxPlaybackIdFromUrl "https://stream.mux.com/abc123/low.mp4" =
      some "abc123" := by
  decide

/-- Claim C7 amended: when a mux-streaming video is seen *positioned in
the DOM* (`hasAnyMux = true`), no cosmos-hosted mp4 video appears in the
final output, from either discovery channel; sources are assumed to
parse as absolute non-opaque URLs, as every DOM/network capture does. -/
theorem c7_amended (positional : List Scrape.PosItem)
    (found : List Scrape.FoundItem)
    (hham : Scrape.hasAnyMux positional = true)
    (hwf1 : ∀ it ∈ positional, ∃ u, parseURL it.src = some u ∧ u.bare = false)
    (hwf2 : ∀ v ∈ found, ∃ u, parseURL v.src = some u ∧ u.bare = false) :
    ∀ o ∈ Scrape.finalBuild positional found, o.type = "video" →
      Scrape.isCosmosHostedMp4 o.src = false := by
  obtain ⟨sel, hsel, hselok, h11, h12, -, -⟩ :=
    fold_emit (Scrape.loop1Step (Scrape.hasAnyMux positional)) Scrape.emitOut1
      Scrape.keyOfOut (Scrape.survives1 (Scrape.hasAnyMux positional))
      (loop1Step_cases (Scrape.hasAnyMux positional))
      (Scrape.sortPositional positional) ([], [])
  obtain ⟨ker, hker, hkerok, -, h22, -, -⟩ :=
    fold_emit (Scrape.loop2Step (Scrape.hasAnyMux positional)) Scrape.emitOut2
      Scrape.keyOfOut (Scrape.survives2 (Scrape.hasAnyMux positional))
      (loop2Step_cases (Scrape.hasAnyMux positional))
      found
      ((Scrape.sortPositional positional).foldl
        (Scrape.loop1Step (Scrape.hasAnyMux positional)) ([], []))
  have hfb : Scrape.finalBuild positional found =
      sel.map Scrape.emitOut1 ++ ker.map Scrape.emitOut2 := by
    have hfb0 : Scrape.finalBuild positional found =
        (found.foldl (Scrape.loop2Step (Scrape.hasAnyMux positional))
          ((Scrape.sortPositional positional).foldl
            (Scrape.loop1Step (Scrape.hasAnyMux positional)) ([], []))).2 := rfl
    rw [hfb0, h22, h12]
    simp
  intro o ho hty
  rw [hfb] at ho
  rcases List.mem_append.mp ho with hmem | hmem
  · obtain ⟨it, hit, rfl⟩ := List.mem_map.mp hmem
    obtain ⟨hD, hE⟩ := survives1_facts (hselok it hit)
    have hitp : it ∈ positional :=
      (stableSort_perm Scrape.posLe positional).subset (hsel.subset hit)
    obtain ⟨u, hu, hb⟩ := hwf1 it hitp
    obtain ⟨n, hn⟩ := Option.isSome_iff_exists.mp hE
    have htyit : it.type = "video" := hty
    have hD2 : Scrape.isCosmosHostedMp4 (Scrape.upSrc1 it) = false := by
      rw [htyit, hham] at hD
      simpa using hD
    have hsrc : (Scrape.emitOut1 it).src = n := by
      simp [Scrape.emitOut1, hn]
    rw [hsrc]
    rw [upSrc1_id] at hn hD2
    rw [cosmosMp4_transfer hu hb hn]
    exact hD2
  · obtain ⟨v, hv, rfl⟩ := List.mem_map.mp hmem
    obtain ⟨hD, hE⟩ := survives2_facts (hkerok v hv)
    have hvf : v ∈ found := hker.subset hv
    obtain ⟨u, hu, hb⟩ := hwf2 v hvf
    obtain ⟨n, hn⟩ := Option.isSome_iff_exists.mp hE
    have htyv : Scrape.netTy v = "video" := hty
    have hD2 : Scrape.isCosmosHostedMp4 (Scrape.netFinalSrc v) = false := by
      rw [htyv, hham] at hD
      simpa using hD
    have hsrc : (Scrape.emitOut2 v).src = n := by
      simp [Scrape.emitOut2, hn]
    rw [hsrc]
    rw [netFinalSrc_id] at hn hD2
    rw [cosmosMp4_transfer hu hb hn]
    exact hD2

/-- Witness for the amended C7 theorem at a concrete gallery containing a
DOM-positioned mux video and a cosmos-hosted mp4. -/
theorem c7_amended_witness :
    Scrape.hasAnyMux [CxVidLow, W7cos] = true ∧
    (∀ o ∈ Scrape.finalBuild [CxVidLow, W7cos] [], o.type = "video" →
      Scrape.isCosmosHostedMp4 o.src = false) := by
  refine ⟨by decide, c7_amended [CxVidLow, W7cos] [] (by decide) ?_ ?_⟩
  · intro it hit
    rcases List.mem_cons.mp hit with rfl | hit2
    · exact ⟨W7u1, by decide, rfl⟩
    rcases List.mem_cons.mp hit2 with rfl | hit3
    · exact ⟨W7u2, by decide, rfl⟩
    · exact absurd hit3 (List.not_mem_nil it)
  · intro v hv
    exact absurd hv (List.not_mem_nil v)

/-- Claim C2 counterexample: in `scrape.mjs` the quality-upgrade function
is the identity (its body is `return urlStr`), so an accepted low-tier mux
video is emitted at the `low.mp4` tier, not the highest known tier. -/
theorem c2_counterexample :
    Scrape.upgradeMuxLowToHigh "https://stream.mux.com/abc123/low.mp4" =
      "https://stream.mux.com/abc123/low.mp4" ∧
    Scrape.finalBuild [CxVidLow] [] =
      [{ type := "video", src := "https://stream.mux.com/abc123/low.mp4",
         width := 0, height := 0, poster := none }] ∧
    muxTier "https://stream.mux.com/abc123/low.mp4" = some "low.mp4" := by
  decide

/-- Claim C2 amended (holds of `part_002`): if every batch tile keyed to
playback id `p` is a genuine mux video stored at the `high.mp4` tier
(true of real mux tiles, whose variants are `low.mp4`, rewritten, or
`high.mp4`), and at least one tile for `p` is accepted, then the final
output contains exactly one asset for `p` and its URL is at the
`high.mp4` tier. -/
theorem c2_amended (p : String) (batch : List P2.RawTile)
    (hco : ∀ raw ∈ batch, P2.muxAttrib p raw)
    (hacc : ∃ raw ∈ batch, P2.acceptedMux p raw) :
    ((P2.runBatch batch).filter
        (fun o => o.type = "video" ∧
          P2.muxPlaybackIdFromStream o.src = some p)).length = 1 ∧
    (∀ o ∈ P2.runBatch batch, o.type = "video" →
      P2.muxPlaybackIdFromStream o.src = some p →
      muxTier o.src = some "high.mp4") := by
  have hInv0 : P2.muxInv p P2.initState.itemsByKey :=
    ⟨by simp [P2.initState], by simp [P2.initState], by simp [P2.initState]⟩
  obtain ⟨hnd, hdir1, hdir2⟩ := P2.mergeBatch_inv batch P2.initState hInv0 hco
  have hsome := P2.mergeBatch_hasKey batch P2.initState hacc
  have hcount := filter_key_singleton
    ((P2.mergeBatch P2.initState batch).itemsByKey) ("video:mux:" ++ p) hnd hsome
  constructor
  · have hrun : P2.runBatch batch =
        (stableSort (fun a b => a.top < b.top || (a.top = b.top && a.left ≤ b.left))
            ((P2.mergeBatch P2.initState batch).itemsByKey.map Prod.snd)).map
          (fun it => P2.OutP2.mk it.type it.src it.width it.height it.poster) := rfl
    rw [hrun, List.filter_map, List.length_map]
    have hcg1 : ∀ x ∈ stableSort
        (fun a b => a.top < b.top || (a.top = b.top && a.left ≤ b.left))
        ((P2.mergeBatch P2.initState batch).itemsByKey.map Prod.snd),
        ((fun o : P2.OutP2 => decide (o.type = "video" ∧
            P2.muxPlaybackIdFromStream o.src = some p)) ∘
          (fun it : P2.Item => P2.OutP2.mk it.type it.src it.width it.height it.poster)) x =
        (fun it : P2.Item => decide (it.type = "video" ∧
          P2.muxPlaybackIdFromStream it.src = some p)) x :=
      fun x _ => rfl
    rw [List.filter_congr hcg1]
    have hperm := (stableSort_perm
        (fun a b : P2.Item => a.top < b.top || (a.top = b.top && a.left ≤ b.left))
        ((P2.mergeBatch P2.initState batch).itemsByKey.map Prod.snd)).filter
      (fun it : P2.Item => decide (it.type = "video" ∧
        P2.muxPlaybackIdFromStream it.src = some p))
    rw [hperm.length_eq, List.filter_map, List.length_map]
    have hcg2 : ∀ kv ∈ (P2.mergeBatch P2.initState batch).itemsByKey,
        ((fun it : P2.Item => decide (it.type = "video" ∧
            P2.muxPlaybackIdFromStream it.src = some p)) ∘ Prod.snd) kv =
        (fun kv : String × P2.Item => decide (kv.1 = "video:mux:" ++ p)) kv := by
      intro kv hkv
      show decide (kv.2.type = "video" ∧ P2.muxPlaybackIdFromStream kv.2.src = some p) =
        decide (kv.1 = "video:mux:" ++ p)
      apply decide_eq_decide.mpr
      constructor
      · exact fun hP => hdir1 kv hkv hP
      · exact fun hQ => ⟨(hdir2 kv hkv hQ).1, (hdir2 kv hkv hQ).2.1⟩
    rw [List.filter_congr hcg2]
    exact hcount
  · intro o ho hty hpid
    have ho2 : o ∈ (stableSort
        (fun a b : P2.Item => a.top < b.top || (a.top = b.top && a.left ≤ b.left))
        ((P2.mergeBatch P2.initState batch).itemsByKey.map Prod.snd)).map
          (fun it => P2.OutP2.mk it.type it.src it.width it.height it.poster) := ho
    obtain ⟨it, hit, rfl⟩ := List.mem_map.mp ho2
    have hit2 : it ∈ (P2.mergeBatch P2.initState batch).itemsByKey.map Prod.snd :=
      (stableSort_perm _ _).subset hit
    obtain ⟨kv, hkv, rfl⟩ := List.mem_map.mp hit2
    have hkey := hdir1 kv hkv ⟨hty, hpid⟩
    exact (hdir2 kv hkv hkey).2.2

/-- Witness for the amended C2 theorem: a batch holding the low-tier and
high-tier variants of one mux clip yields exactly one emitted asset, at
the high tier. -/
theorem c2_amended_witness :
    ((P2.runBatch [W2low, W2high]).filter
        (fun o => o.type = "video" ∧
          P2.muxPlaybackIdFromStream o.src = some "abc123")).length = 1 ∧
    (∀ o ∈ P2.runBatch [W2low, W2high], o.type = "video" →
      P2.muxPlaybackIdFromStream o.src = some "abc123" →
      muxTier o.src = some "high.mp4") := by
  apply c2_amended "abc123" [W2low, W2high]
  · intro raw hraw
    rcases List.mem_cons.mp hraw with rfl | h2
    · intro src0 h1 h2x h3x h4x
      rw [show P2.normaliseURL W2low.src P2.COSMOS_URL =
          some "https://stream.mux.com/abc123/low.mp4" from by decide] at h1
      injection h1 with h1e
      subst h1e
      exact ⟨by decide, by decide, by decide⟩
    rcases List.mem_cons.mp h2 with rfl | h3
    · intro src0 h1 h2x h3x h4x
      rw [show P2.normaliseURL W2high.src P2.COSMOS_URL =
          some "https://stream.mux.com/abc123/high.mp4" from by decide] at h1
      injection h1 with h1e
      subst h1e
      exact ⟨by decide, by decide, by decide⟩
    · exact absurd h3 (List.not_mem_nil raw)
  · exact ⟨W2low, List.mem_cons_self _ _,
      "https://stream.mux.com/abc123/low.mp4",
      by decide, by decide, by decide, by decide, by decide⟩

/-- Claim C3 counterexample: the `scrape.mjs` scroll loop converges on
height stability alone — with a constant height trace it breaks at step 9
of 260 even though every step merged new identities (the item channel is
not consulted at all; a streak counter over an all-ones news trace is 0,
below the threshold). -/
theorem c3_counterexample :
    Scrape.scrollLoop Scrape.MAX_SCROLLS Scrape.STABLE_CHECKS (fun _ => 1000) =
      (9, true) ∧
    9 < Scrape.MAX_SCROLLS ∧
    Scrape.zeroNewStreak (List.replicate 9 1) = 0 ∧
    0 < Scrape.STABLE_CHECKS := by
  decide

/-- Claim C3 amended (holds of `part_002`): whenever its scroll loop
breaks before the step ceiling, both final counters — height stability
and no-new-items — have reached the configured threshold. -/
theorem c3_amended (maxScrolls sc : Nat) (trace : Nat → P2.StepObs)
    (steps a b : Nat)
    (h : P2.scrollLoop maxScrolls sc trace = (steps, true, a, b)) :
    sc ≤ a ∧ sc ≤ b :=
  P2.loopGo_early sc ((List.range maxScrolls).map trace) 0 0 0 0 0 steps a b h

/-- Witness for the amended C3 theorem on a concrete constant trace that
converges after 3 of 10 steps with both counters at the threshold 2. -/
theorem c3_amended_witness :
    P2.scrollLoop 10 2 (fun _ => { count := 5, height := 7 }) = (3, true, 2, 2) ∧
    (2 ≤ 2 ∧ 2 ≤ 2) :=
  ⟨by decide, c3_amended 10 2 (fun _ => { count := 5, height := 7 }) 3 2 2 (by decide)⟩

/-- Claim C4 counterexample: there is no pending-poster attachment — a mux
thumbnail observation and its matching video observation, merged in either
order, yield one asset whose poster is `none`, not the thumbnail. -/
theorem c4_counterexample :
    P2.runBatch [W4thumb, W2low] =
      [{ type := "video", src := "https://stream.mux.com/abc123/high.mp4",
         width := 0, height := 0, poster := none }] ∧
    P2.runBatch [W2low, W4thumb] =
      [{ type := "video", src := "https://stream.mux.com/abc123/high.mp4",
         width := 0, height := 0, poster := none }] ∧
    P2.muxPlaybackIdFromThumb "https://image.mux.com/abc123/thumbnail.png" =
      some "abc123" ∧
    P2.muxPlaybackIdFromStream "https://stream.mux.com/abc123/high.mp4" =
      some "abc123" := by
  decide

/-- Claim C4 amended (holds of `part_002`): a poster-only (provider
thumbnail) observation never touches the keyed collection — merging it
before or after the video observation leaves exactly the collection
produced by the video alone, whose poster can only come from the video
tile's own poster attribute. -/
theorem c4_amended (st : P2.State) (t v : P2.RawTile) (h : P2.posterOnly t) :
    (P2.mergeTile (P2.mergeTile st t) v).itemsByKey =
      (P2.mergeTile st v).itemsByKey ∧
    (P2.mergeTile (P2.mergeTile st v) t).itemsByKey =
      (P2.mergeTile st v).itemsByKey := by
  constructor
  · exact P2.mergeTile_items_congr v (P2.mergeTile_thumb_items h)
  · exact P2.mergeTile_thumb_items h

/-- Witness for the amended C4 theorem at the concrete thumbnail/video
pair. -/
theorem c4_amended_witness :
    (P2.mergeTile (P2.mergeTile P2.initState W4thumb) W2low).itemsByKey =
      (P2.mergeTile P2.initState W2low).itemsByKey ∧
    (P2.mergeTile (P2.mergeTile P2.initState W2low) W4thumb).itemsByKey =
      (P2.mergeTile P2.initState W2low).itemsByKey := by
  apply c4_amended
  intro src0 h1 h2x
  rw [show P2.normaliseURL W4thumb.src P2.COSMOS_URL =
      some "https://image.mux.com/abc123/thumbnail.png" from by decide] at h1
  injection h1 with h1e
  subst h1e
  decide

/-- Claim C6 counterexample: the larger-dimension merge lives only in
`foundMap`; the emitted record of a positioned asset keeps the dimensions
of its first surviving occurrence, so a later 500x400 observation of the
same image leaves the output at width 0 even though the `foundMap` record
was upgraded to 500x400. -/
theorem c6_counterexample :
    Scrape.finalBuild [Cx6a, Cx6b] [] =
      [{ type := "image", src := "https://cdn.cosmos.so/a.jpg",
         width := 0, height := 0, poster := none }] ∧
    (Scrape.domFoundUpsert
        (Scrape.domFoundUpsert [] "https://cdn.cosmos.so/a.jpg" false 0 0)
        "https://cdn.cosmos.so/a.jpg" false 500 400).lookup
      "https://cdn.cosmos.so/a.jpg" =
      some { type := "image", src := "https://cdn.cosmos.so/a.jpg",
             width := 500, height := 400 } ∧
    Cx6b.width = 500 := by
  decide

/-- Claim C6 amended: the largest-non-zero merge does hold of the
`foundMap` upsert — on a key collision the stored record keeps the
componentwise maximum of the existing and newly clamped dimensions
(dimensions in the map are never negative). -/
theorem c6_amended (m : List (String × Scrape.FoundItem)) (norm0 : String)
    (isVideo : Bool) (w h : Int) (existing : Scrape.FoundItem)
    (hl : m.lookup norm0 = some existing)
    (hw : 0 ≤ existing.width) (hh : 0 ≤ existing.height) :
    (Scrape.domFoundUpsert m norm0 isVideo w h).lookup norm0 =
      some { existing with
             width := max existing.width (Scrape.clampDim w 0),
             height := max existing.height (Scrape.clampDim h 0) } := by
  unfold Scrape.domFoundUpsert
  rw [hl]
  dsimp only
  rw [lookup_mapSet]
  rw [dimMerge existing.width (Scrape.clampDim w 0) hw (clampDim_nonneg w),
      dimMerge existing.height (Scrape.clampDim h 0) hh (clampDim_nonneg h)]

/-- Witness for the amended C6 theorem at a concrete collision. -/
theorem c6_amended_witness :
    (Scrape.domFoundUpsert [("k", Cx6FoundA)] "k" false 500 400).lookup "k" =
      some { Cx6FoundA with
             width := max Cx6FoundA.width (Scrape.clampDim 500 0),
             height := max Cx6FoundA.height (Scrape.clampDim 400 0) } :=
  c6_amended [("k", Cx6FoundA)] "k" false 500 400 Cx6FoundA
    (by decide) (by decide) (by decide)

/-- Claim C8 counterexample: the `scrape.mjs` main function has no
try/catch — a navigation failure escapes as an unhandled rejection, so
nothing at all is written to the output file (no failure payload). -/
theorem c8_counterexample :
    Scrape.scrapeRun (Except.error "net::ERR_TIMED_OUT") [] [] =
      Except.error "net::ERR_TIMED_OUT" := rfl

/-- Claim C8 amended (holds of `part_001`): on a navigation failure the
catch block writes exactly the failure payload and sets exit code 1. -/
theorem c8_amended (url e : String) (collected : List (String × P1.Item)) :
    P1.run url (Except.error e) collected =
      ({ ok := false, source := url, count := 0, items := [], error := some e }, 1) :=
  rfl

/-- Claim C9: merging the same observation twice is the same as merging
it once, in both the `part_001` and the `part_002` reconcilers. -/
theorem c9_merge_idempotent :
    (∀ (m : List (String × P1.Item)) (o : P1.RawTile),
       P1.mergeObs (P1.mergeObs m o) o = P1.mergeObs m o) ∧
    (∀ (st : P2.State) (r : P2.RawTile),
       P2.mergeTile (P2.mergeTile st r) r = P2.mergeTile st r) :=
  ⟨mergeObs_idem, mergeTile_idem⟩

/-- Claim C10: the `part_001` upgrade function rewrites the second path
segment of every `stream.mux.com` URL with at least two segments to
`high.mp4` (whatever it was), preserving the playback id; any other URL
is returned unchanged. -/
theorem c10_upgrade_all_tiers :
    (∀ url u, parseURL url = some u → lowerStr u.host = "stream.mux.com" →
       2 ≤ (pathSegs u.pathname).length →
       muxTier (P1.upgradeMux url) = some "high.mp4" ∧
       P1.muxPlaybackIdFromStream (P1.upgradeMux url) =
         (pathSegs u.pathname).head?) ∧
    (∀ url u, parseURL url = some u → lowerStr u.host ≠ "stream.mux.com" →
       P1.upgradeMux url = url) ∧
    (∀ url u, parseURL url = some u → (pathSegs u.pathname).length < 2 →
       P1.upgradeMux url = url) ∧
    (∀ url, parseURL url = none → P1.upgradeMux url = url) := by
  refine ⟨?_, ?_, ?_, ?_⟩
  · intro url u h hmux hseg
    obtain ⟨hreb, hsegs⟩ := upgradeP1_reparse h hmux hseg
    constructor
    · unfold muxTier
      rw [hreb]
      dsimp only
      rw [if_pos hmux]
      rw [hsegs]
      rw [List.get?_eq_getElem?]
      exact List.getElem?_set_self (by omega)
    · unfold P1.muxPlaybackIdFromStream
      rw [hreb]
      dsimp only
      rw [if_neg (fun hc => hc hmux)]
      rw [hsegs, set1_head]
  · intro url u h hne
    unfold P1.upgradeMux
    rw [h]
    dsimp only
    rw [if_pos hne]
  · intro url u h hlen
    unfold P1.upgradeMux
    rw [h]
    dsimp only
    by_cases hm : lowerStr u.host ≠ "stream.mux.com"
    · rw [if_pos hm]
    · rw [if_neg hm]
      rw [if_neg (by omega : ¬(2 ≤ (pathSegs u.pathname).length))]
  · intro url h
    unfold P1.upgradeMux
    rw [h]

/-- Witness for C10 at a concrete mid-tier URL: the `medium.mp4` segment
is rewritten to `high.mp4` even though it is not `low.mp4`. -/
theorem c10_upgrade_all_tiers_witness :
    muxTier (P1.upgradeMux "https://stream.mux.com/abc123/medium.mp4") =
      some "high.mp4" ∧
    P1.muxPlaybackIdFromStream
        (P1.upgradeMux "https://stream.mux.com/abc123/medium.mp4") =
      some "abc123" := by
  have h := c10_upgrade_all_tiers.1 "https://stream.mux.com/abc123/medium.mp4"
    W10u (by decide) (by decide) (by decide)
  exact ⟨h.1, by rw [h.2]; decide⟩








end Cosmos
